import Mathlib

/-!
Verification development for the `x/lst` liquid-staking module
(baskets of validator-weighted stake, basket-token mint/redeem/convert,
pending-redemption queue, monotone ID counters, genesis import/export).

The Go sources are shallowly embedded as Lean functions:

* `cosmossdk.io/math.LegacyDec` (an arbitrary-precision decimal per the
  module's data model) is embedded as `ℚ`; `math.Int` as `ℤ`; `uint64`
  as `Nat` together with explicit `% 2^64` wherever the Go code performs
  64-bit arithmetic (the ID counters).  `LegacyDec.TruncateInt` chops the
  fractional digits, i.e. truncates toward zero (`TruncateInt` below).
* The module's KV store is embedded as `LstState`: one field per key
  region (the Go key prefixes 0x10, 0x11, 0x20, 0x21, 0x22, 0x30, 0x31
  are pairwise distinct first bytes, so the regions never alias).
  Primary records are association lists keyed exactly as the store keys
  them; the two redemption index regions keep their raw byte keys
  (bytes embedded as `Nat` codepoints) because the queries reconstruct
  records from those bytes.  Prefix iteration is embedded as filtering
  the region by the byte prefix; iteration order of the underlying
  store is abstracted because every property proved here is order
  insensitive.
* External collaborators (staking subsystem, bank ledger, address
  codec) are parameters: validator lookup/bond status, the bond denom
  and unbonding duration come in through `StakingState`, and bech32
  address validity through `String → Bool` predicates.  Bank and
  staking side effects (transfers, delegations, redelegations, burns,
  mints) act on other modules' state and are therefore not part of
  `LstState`; the amounts the module computes for them are returned as
  data where a property refers to them.
-/

/-- Truncation toward zero of a rational number: the embedding of
`LegacyDec.TruncateInt`, which chops the fractional digits. -/
def TruncateInt (q : ℚ) : ℤ := if 0 ≤ q then ⌊q⌋ else -⌊-q⌋

theorem TruncateInt_eq_floor (q : ℚ) (h : 0 ≤ q) : TruncateInt q = ⌊q⌋ := by
  simp [TruncateInt, h]

/-- One weighted validator entry of a basket (`types.ValidatorWeight`). -/
structure ValidatorWeight where
  ValidatorAddress : String
  Weight : ℚ
deriving DecidableEq

/-- Optional display metadata of a basket (`types.BasketMetadata`). -/
structure BasketMetadata where
  Name : String
  Description : String
  Symbol : String
deriving DecidableEq

/-- A validator-weighted staking pool (`types.Basket`). -/
structure Basket where
  Id : String
  Denom : String
  Validators : List ValidatorWeight
  TotalShares : ℚ
  TotalStakedTokens : ℤ
  Creator : String
  CreationTime : ℤ
  Metadata : BasketMetadata
deriving DecidableEq

/-- A queued promise to pay out underlying tokens after unbonding
(`types.PendingRedemption`).  Timestamps are integers (block time). -/
structure PendingRedemption where
  Id : Nat
  BasketId : String
  Delegator : String
  SharesBurned : ℚ
  TokensToReceive : ℤ
  CompletionTime : ℤ
  CreationTime : ℤ
deriving DecidableEq

/-- A coin: denomination plus amount (`sdk.Coin`). -/
structure Coin where
  denom : String
  amount : ℤ
deriving DecidableEq

/-- `types.MsgCreateBasket`. -/
structure MsgCreateBasket where
  Creator : String
  Validators : List ValidatorWeight
  Metadata : BasketMetadata
deriving DecidableEq

/-- `types.MsgMintBasketToken`. -/
structure MsgMintBasketToken where
  Minter : String
  BasketId : String
  Amount : Coin
deriving DecidableEq

/-- `types.MsgRedeemBasketToken`. -/
structure MsgRedeemBasketToken where
  Redeemer : String
  BasketId : String
  Amount : Coin
deriving DecidableEq

/-- The module's registered error values (`x/lst` `types/errors.go`),
restricted to the errors the embedded code paths can return; the `vb`
constructors stand for the plain `fmt.Errorf` failures of the
`ValidateBasic` pre-checks. -/
inductive Err where
  | invalidCreator
  | invalidValidatorAddr
  | validatorNotFound
  | invalidValidatorSet
  | weightsSumIncorrect
  | basketNotFound
  | invalidStakingDenom
  | invalidBasketDenom
  | invalidMinter
  | invalidRedeemer
  | vbCreator
  | vbNoValidators
  | vbValidatorAddr
  | vbDuplicateValidator
  | vbWeightNotPositive
  | vbWeightsSum
  | vbMetadata
deriving DecidableEq

/-- View of the staking subsystem consumed by the module (external
collaborator, §6 of the design): validator lookup returning the bonded
flag, the bond denom, and the unbonding duration. -/
structure StakingState where
  getValidator : String → Option Bool
  bondDenom : String
  unbondingTime : ℤ

/-- The lst module's genesis object (`types.GenesisState`).  `Params`
carries no data (`types.NewParams()` is a unit value in the source). -/
structure GenesisState where
  Params : Unit
  Baskets : List Basket
  PendingRedemptions : List PendingRedemption
  NextBasketId : Nat
  NextPendingId : Nat
deriving DecidableEq

/-- `types.DefaultGenesis`. -/
def DefaultGenesis : GenesisState :=
  { Params := (), Baskets := [], PendingRedemptions := [],
    NextBasketId := 1, NextPendingId := 1 }

/-! ### Association-list embedding of the keyed store regions -/

/-- Store write at a key: replaces any entry at the same key. -/
def kvSet {κ α : Type} [DecidableEq κ] (l : List (κ × α)) (k : κ) (v : α) :
    List (κ × α) :=
  (k, v) :: l.filter (fun p => decide (p.1 ≠ k))

/-- Store read at a key. -/
def kvGet {κ α : Type} [DecidableEq κ] (l : List (κ × α)) (k : κ) : Option α :=
  (l.find? (fun p => decide (p.1 = k))).map Prod.snd

/-- Store delete at a key. -/
def kvDel {κ α : Type} [DecidableEq κ] (l : List (κ × α)) (k : κ) :
    List (κ × α) :=
  l.filter (fun p => decide (p.1 ≠ k))

theorem kvGet_kvSet_same {κ α : Type} [DecidableEq κ]
    (l : List (κ × α)) (k : κ) (v : α) : kvGet (kvSet l k v) k = some v := by
  simp [kvGet, kvSet, List.find?]

theorem kvGet_kvSet_other {κ α : Type} [DecidableEq κ]
    (l : List (κ × α)) (k k' : κ) (v : α) (h : k' ≠ k) :
    kvGet (kvSet l k v) k' = kvGet l k' := by
  simp only [kvGet, kvSet]
  rw [List.find?_cons_of_neg _ (by simp [Ne.symm h])]
  induction l with
  | nil => rfl
  | cons p t ih =>
    by_cases hp : p.1 = k
    · rw [List.filter_cons_of_neg (by simp [hp])]
      rw [List.find?_cons_of_neg _ (by simp [hp, Ne.symm h])]
      exact ih
    · rw [List.filter_cons_of_pos (by simp [hp])]
      by_cases hk' : p.1 = k'
      · rw [List.find?_cons_of_pos _ (by simp [hk']),
          List.find?_cons_of_pos _ (by simp [hk'])]
      · rw [List.find?_cons_of_neg _ (by simp [hk']),
          List.find?_cons_of_neg _ (by simp [hk'])]
        exact ih

theorem kvGet_eq_some_of_mem {κ α : Type} [DecidableEq κ]
    (l : List (κ × α)) (k : κ) (v : α)
    (hmem : (k, v) ∈ l) (hnd : (l.map Prod.fst).Nodup) :
    kvGet l k = some v := by
  induction l with
  | nil => cases hmem
  | cons p t ih =>
    rcases List.mem_cons.mp hmem with h | h
    · subst h; simp [kvGet, List.find?]
    · have hp : p.1 ≠ k := by
        intro hk
        have hmap : k ∈ t.map Prod.fst := List.mem_map.mpr ⟨(k, v), h, rfl⟩
        simp only [List.map_cons, List.nodup_cons] at hnd
        exact hnd.1 (hk ▸ hmap)
      simp only [kvGet]
      rw [List.find?_cons_of_neg _ (by simp [hp])]
      exact ih h (by simp only [List.map_cons, List.nodup_cons] at hnd; exact hnd.2)

theorem kvGet_eq_none_iff {κ α : Type} [DecidableEq κ]
    (l : List (κ × α)) (k : κ) :
    kvGet l k = none ↔ ∀ p ∈ l, p.1 ≠ k := by
  simp [kvGet, List.find?_eq_none]

/-! ### Raw byte keys of the redemption index regions

Go builds the index keys as `prefixByte ++ addr ++ "/" ++ bigEndian64(id)`
(`types.RedemptionByUserStoreKey` / `types.RedemptionByBasketStoreKey`).
Bytes are embedded as `Nat`; a string contributes its character
codepoints, `'/'` is codepoint 47, and the ID contributes exactly eight
big-endian base-256 digits.  The region's leading prefix byte is
represented by the dedicated `LstState` field. -/

/-- The bytes a string contributes to a store key. -/
def strBytes (s : String) : List Nat := s.data.map Char.toNat

/-- The eight big-endian base-256 digits of a `uint64`
(`binary.BigEndian.PutUint64`). -/
def beBytes8 (n : Nat) : List Nat :=
  [n / 2 ^ 56 % 256, n / 2 ^ 48 % 256, n / 2 ^ 40 % 256, n / 2 ^ 32 % 256,
   n / 2 ^ 24 % 256, n / 2 ^ 16 % 256, n / 2 ^ 8 % 256, n % 256]

/-- `sdk.BigEndianToUint64` composed over the digit list
(`binary.BigEndian.Uint64`). -/
def beValue (l : List Nat) : Nat := l.foldl (fun a b => a * 256 + b) 0

/-- `Keeper.extractIDFromBytes`: the big-endian value when given exactly
eight bytes, zero otherwise. -/
def extractIDFromBytes (bz : List Nat) : Nat :=
  if bz.length = 8 then beValue bz else 0

/-- `types.RedemptionByUserStoreKey` without its region prefix byte. -/
def RedemptionByUserStoreKey (userAddr : String) (id : Nat) : List Nat :=
  strBytes userAddr ++ 47 :: beBytes8 id

/-- `types.RedemptionByBasketStoreKey` without its region prefix byte. -/
def RedemptionByBasketStoreKey (basketID : String) (id : Nat) : List Nat :=
  strBytes basketID ++ 47 :: beBytes8 id

/-- Byte-prefix test used to embed the store's prefix iteration. -/
def hasPfx : List Nat → List Nat → Bool
  | [], _ => true
  | _ :: _, [] => false
  | a :: p, b :: l => a == b && hasPfx p l

/-- Key-set insertion for an index region (writing `key -> nil` into the
store; writing an existing key is a no-op on the key set). -/
def keyInsert (k : List Nat) (l : List (List Nat)) : List (List Nat) :=
  if k ∈ l then l else k :: l

/-- Key removal for an index region. -/
def keyRemove (k : List Nat) (l : List (List Nat)) : List (List Nat) :=
  l.filter (fun x => decide (x ≠ k))

theorem hasPfx_iff (p l : List Nat) : hasPfx p l = true ↔ ∃ t, l = p ++ t := by
  induction p generalizing l with
  | nil => simp [hasPfx]
  | cons a p ih =>
    cases l with
    | nil =>
      simp only [hasPfx, List.cons_append]
      constructor
      · intro h; cases h
      · rintro ⟨t, ht⟩; cases ht
    | cons b l =>
      simp only [hasPfx, Bool.and_eq_true, beq_iff_eq, ih, List.cons_append,
        List.cons.injEq]
      constructor
      · rintro ⟨rfl, t, rfl⟩; exact ⟨t, rfl, rfl⟩
      · rintro ⟨t, rfl, rfl⟩; exact ⟨rfl, t, rfl⟩

theorem beBytes8_length (n : Nat) : (beBytes8 n).length = 8 := rfl

theorem beValue_beBytes8 (n : Nat) (h : n < 2 ^ 64) : beValue (beBytes8 n) = n := by
  simp only [beBytes8, beValue, List.foldl]
  omega

theorem strBytes_inj {s t : String} (h : strBytes s = strBytes t) : s = t := by
  apply String.ext
  have hinj : Function.Injective Char.toNat := by
    intro a b hab
    exact Char.ext (UInt32.toNat.inj hab)
  exact List.map_injective_iff.mpr hinj h

theorem userKey_inj {u v : String} {i j : Nat}
    (hi : i < 2 ^ 64) (hj : j < 2 ^ 64)
    (h : RedemptionByUserStoreKey u i = RedemptionByUserStoreKey v j) :
    u = v ∧ i = j := by
  have hlen : (strBytes u).length = (strBytes v).length := by
    have := congrArg List.length h
    simp only [RedemptionByUserStoreKey, List.length_append, List.length_cons,
      beBytes8_length] at this
    omega
  obtain ⟨h1, h2⟩ := List.append_inj h hlen
  refine ⟨strBytes_inj h1, ?_⟩
  have hbe : beBytes8 i = beBytes8 j := by
    simpa using h2
  have hval := congrArg beValue hbe
  rw [beValue_beBytes8 i hi, beValue_beBytes8 j hj] at hval
  exact hval

theorem basketKey_inj {u v : String} {i j : Nat}
    (hi : i < 2 ^ 64) (hj : j < 2 ^ 64)
    (h : RedemptionByBasketStoreKey u i = RedemptionByBasketStoreKey v j) :
    u = v ∧ i = j := by
  have hlen : (strBytes u).length = (strBytes v).length := by
    have := congrArg List.length h
    simp only [RedemptionByBasketStoreKey, List.length_append, List.length_cons,
      beBytes8_length] at this
    omega
  obtain ⟨h1, h2⟩ := List.append_inj h hlen
  refine ⟨strBytes_inj h1, ?_⟩
  have hbe : beBytes8 i = beBytes8 j := by
    simpa using h2
  have hval := congrArg beValue hbe
  rw [beValue_beBytes8 i hi, beValue_beBytes8 j hj] at hval
  exact hval

/-! ### The module's persisted state -/

/-- The lst module's KV store, one field per key region (see the module
header).  Counters are `Option Nat`: `none` embeds an absent key. -/
structure LstState where
  baskets : List (String × Basket)
  basketByDenom : List (String × String)
  pendingRedemptions : List (Nat × PendingRedemption)
  redemptionByUser : List (List Nat)
  redemptionByBasket : List (List Nat)
  nextBasketId : Option Nat
  nextPendingId : Option Nat
deriving DecidableEq

/-- The empty store. -/
def emptyLstState : LstState :=
  { baskets := [], basketByDenom := [], pendingRedemptions := [],
    redemptionByUser := [], redemptionByBasket := [],
    nextBasketId := none, nextPendingId := none }

/-- `types.GetBasketTokenDenom`: `fmt.Sprintf("bTIA-%s", basketID)`. -/
def GetBasketTokenDenom (basketID : String) : String := "bTIA-" ++ basketID

/-- `Keeper.GetBasket`. -/
def GetBasket (s : LstState) (basketID : String) : Option Basket :=
  kvGet s.baskets basketID

/-- `Keeper.SetBasket` (stores the record under its own `Id` field). -/
def SetBasket (s : LstState) (b : Basket) : LstState :=
  { s with baskets := kvSet s.baskets b.Id b }

/-- `Keeper.SetBasketByDenom`. -/
def SetBasketByDenom (s : LstState) (denom basketID : String) : LstState :=
  { s with basketByDenom := kvSet s.basketByDenom denom basketID }

/-- `Keeper.GetAllBaskets` (values of the basket region). -/
def GetAllBaskets (s : LstState) : List Basket := s.baskets.map Prod.snd

/-- `Keeper.SetNextBasketID`: stores the ID as eight bytes, hence modulo
`2^64`. -/
def SetNextBasketID (s : LstState) (id : Nat) : LstState :=
  { s with nextBasketId := some (id % 2 ^ 64) }

/-- `Keeper.GetNextBasketID`: returns the stored counter (1 if the key
is absent) and stores the successor. -/
def GetNextBasketID (s : LstState) : Nat × LstState :=
  match s.nextBasketId with
  | none => (1, SetNextBasketID s 2)
  | some c => (c, SetNextBasketID s (c + 1))

/-- `Keeper.SetNextPendingID`. -/
def SetNextPendingID (s : LstState) (id : Nat) : LstState :=
  { s with nextPendingId := some (id % 2 ^ 64) }

/-- `Keeper.GetNextPendingID`. -/
def GetNextPendingID (s : LstState) : Nat × LstState :=
  match s.nextPendingId with
  | none => (1, SetNextPendingID s 2)
  | some c => (c, SetNextPendingID s (c + 1))

/-! ### Pending redemption operations (`keeper/pending.go`) -/

/-- `Keeper.SetPendingRedemption`: writes the primary record and both
index keys in one call. -/
def SetPendingRedemption (s : LstState) (redemption : PendingRedemption) : LstState :=
  { s with
    pendingRedemptions := kvSet s.pendingRedemptions redemption.Id redemption,
    redemptionByUser :=
      keyInsert (RedemptionByUserStoreKey redemption.Delegator redemption.Id)
        s.redemptionByUser,
    redemptionByBasket :=
      keyInsert (RedemptionByBasketStoreKey redemption.BasketId redemption.Id)
        s.redemptionByBasket }

/-- `Keeper.GetPendingRedemption`. -/
def GetPendingRedemption (s : LstState) (id : Nat) : Option PendingRedemption :=
  kvGet s.pendingRedemptions id

/-- `Keeper.DeletePendingRedemption`: removes the primary record and the
index keys derived from the passed record. -/
def DeletePendingRedemption (s : LstState) (redemption : PendingRedemption) : LstState :=
  { s with
    pendingRedemptions := kvDel s.pendingRedemptions redemption.Id,
    redemptionByUser :=
      keyRemove (RedemptionByUserStoreKey redemption.Delegator redemption.Id)
        s.redemptionByUser,
    redemptionByBasket :=
      keyRemove (RedemptionByBasketStoreKey redemption.BasketId redemption.Id)
        s.redemptionByBasket }

/-- `Keeper.GetAllPendingRedemptions` (values of the primary region). -/
def GetAllPendingRedemptions (s : LstState) : List PendingRedemption :=
  s.pendingRedemptions.map Prod.snd

/-- `Keeper.GetPendingRedemptionsByUser`: iterates the user index with
prefix `userAddr ++ "/"`, keeps suffixes of exactly eight bytes, and
resolves each extracted ID against the primary region. -/
def GetPendingRedemptionsByUser (s : LstState) (userAddr : String) :
    List PendingRedemption :=
  let pfx := strBytes userAddr ++ [47]
  s.redemptionByUser.filterMap (fun key =>
    if hasPfx pfx key then
      let idBytes := key.drop pfx.length
      if idBytes.length = 8 then GetPendingRedemption s (extractIDFromBytes idBytes)
      else none
    else none)

/-- `Keeper.GetPendingRedemptionsByBasket`. -/
def GetPendingRedemptionsByBasket (s : LstState) (basketID : String) :
    List PendingRedemption :=
  let pfx := strBytes basketID ++ [47]
  s.redemptionByBasket.filterMap (fun key =>
    if hasPfx pfx key then
      let idBytes := key.drop pfx.length
      if idBytes.length = 8 then GetPendingRedemption s (extractIDFromBytes idBytes)
      else none
    else none)

/-- `Keeper.CreatePendingRedemption`: allocates an ID and stores the
record; returns the allocated ID with the new state. -/
def CreatePendingRedemption (s : LstState) (basketID : String)
    (delegator : String) (sharesBurned : ℚ) (tokensToReceive : ℤ)
    (completionTime : ℤ) (blockTime : ℤ) : Nat × LstState :=
  let a := GetNextPendingID s
  let redemption : PendingRedemption :=
    { Id := a.1, BasketId := basketID, Delegator := delegator,
      SharesBurned := sharesBurned, TokensToReceive := tokensToReceive,
      CompletionTime := completionTime, CreationTime := blockTime }
  (a.1, SetPendingRedemption a.2 redemption)

/-- `Keeper.GetMaturePendingRedemptions`: all pending redemptions whose
completion time is before or equal to the current block time. -/
def GetMaturePendingRedemptions (s : LstState) (blockTime : ℤ) :
    List PendingRedemption :=
  (GetAllPendingRedemptions s).filter (fun r => decide (r.CompletionTime ≤ blockTime))

/-- `Keeper.GetBasketExchangeRate` (`keeper/pending.go`): 1 when no
shares exist, otherwise `TotalStakedTokens / TotalShares`. -/
def GetBasketExchangeRate (basket : Basket) : ℚ :=
  if basket.TotalShares = 0 then 1
  else (basket.TotalStakedTokens : ℚ) / basket.TotalShares

/-! ### Genesis (`keeper/genesis.go`) -/

/-- `Keeper.InitGenesis`: the source only calls `SetParams`, which is a
no-op; baskets, pending redemptions and counters of the genesis object
are ignored. -/
def InitGenesis (s : LstState) (_genState : GenesisState) : LstState := s

/-- `Keeper.ExportGenesis`: the source returns `DefaultGenesis()` with
`Params` refreshed (`GetParams` always returns `NewParams()`); nothing
is read from the store. -/
def ExportGenesis (_s : LstState) : GenesisState :=
  { DefaultGenesis with Params := () }

/-! ### Exchange-rate helpers of the message server (`keeper/msg_server`) -/

/-- `msgServer.calculateBasketTokensToMint`: 1:1 on the first mint,
otherwise `amount / rate` truncated. -/
def calculateBasketTokensToMint (basket : Basket) (stakingAmount : ℤ) : ℤ :=
  if basket.TotalShares = 0 then stakingAmount
  else TruncateInt ((stakingAmount : ℚ) / GetBasketExchangeRate basket)

/-- `msgServer.calculateUnderlyingTokensToRedeem`:
`basketTokenAmount * rate` truncated. -/
def calculateUnderlyingTokensToRedeem (basket : Basket) (basketTokenAmount : ℤ) : ℤ :=
  TruncateInt ((basketTokenAmount : ℚ) * GetBasketExchangeRate basket)

/-- The per-validator accumulation of `msgServer.RedeemBasketToken`:
`unbondingAmount = truncate(weight * underlying)` for each validator,
zero amounts skipped, summed into `totalUnbonding`. -/
def totalUnbondingOf (validators : List ValidatorWeight) (underlying : ℤ) : ℤ :=
  validators.foldl
    (fun acc val =>
      let unbondingAmount := TruncateInt (val.Weight * (underlying : ℚ))
      if unbondingAmount = 0 then acc else acc + unbondingAmount)
    0

/-! ### Full operations

Each operation takes the state and returns the state it leaves behind
together with `Except Err out`, so that mutations the Go code performs
before returning an error stay observable.  Bank/staking subsystem
calls are external effects (§6); the flows below embed the validation
logic and every write to the module's own store, and surface amounts
handed to the collaborators as output data. -/

/-- `msgServer.CreateBasket` validator loop: bech32 check, existence
check, bonded check, in order, first failure wins. -/
def checkValidatorsMsg (stk : StakingState) (validVal : String → Bool) :
    List ValidatorWeight → Option Err
  | [] => none
  | val :: rest =>
    if ¬ validVal val.ValidatorAddress then some .invalidValidatorAddr
    else
      match stk.getValidator val.ValidatorAddress with
      | none => some .validatorNotFound
      | some bonded =>
        if ¬ bonded then some .invalidValidatorSet
        else checkValidatorsMsg stk validVal rest

/-- `msgServer.CreateBasket`: validates creator and validators, then
allocates the ID, stores the basket, and bumps the counter again with
the same value (`SetNextBasketID(nextID+1)` after `GetNextBasketID`).
The basket module account creation and the event emission are external
effects. -/
def msgCreateBasket (stk : StakingState) (validAcc validVal : String → Bool)
    (blockTime : ℤ) (s : LstState) (msg : MsgCreateBasket) :
    LstState × Except Err (String × String) :=
  if ¬ validAcc msg.Creator then (s, .error .invalidCreator)
  else
    match checkValidatorsMsg stk validVal msg.Validators with
    | some e => (s, .error e)
    | none =>
      let a := GetNextBasketID s
      let basketID := toString a.1
      let basketDenom := GetBasketTokenDenom basketID
      let basket : Basket :=
        { Id := basketID, Denom := basketDenom, Validators := msg.Validators,
          TotalShares := 0, TotalStakedTokens := 0, Creator := msg.Creator,
          CreationTime := blockTime, Metadata := msg.Metadata }
      let s2 := SetBasket a.2 basket
      let s3 := SetNextBasketID s2 (a.1 + 1)
      (s3, .ok (basketID, basketDenom))

/-- `Keeper.CreateBasket` validator loop: only existence is checked
(`keeper.go` casts the address without bech32 validation and does not
look at the bond status). -/
def checkValidatorsKeeper (stk : StakingState) :
    List ValidatorWeight → Option Err
  | [] => none
  | val :: rest =>
    match stk.getValidator val.ValidatorAddress with
    | none => some .validatorNotFound
    | some _ => checkValidatorsKeeper stk rest

/-- The running weight total of `Keeper.CreateBasket`. -/
def sumWeights (validators : List ValidatorWeight) : ℚ :=
  validators.foldl (fun acc val => acc + val.Weight) 0

/-- `Keeper.CreateBasket` (`keeper/keeper.go`): allocates the basket ID
*before* validating, requires the weights to sum to exactly one, and on
success stores the basket and its denom index. -/
def KeeperCreateBasket (stk : StakingState) (blockTime : ℤ) (s : LstState)
    (creator : String) (validators : List ValidatorWeight)
    (metadata : BasketMetadata) : LstState × Except Err String :=
  let a := GetNextBasketID s
  let basketID := toString a.1
  let denom := "bTIA-" ++ basketID
  match checkValidatorsKeeper stk validators with
  | some e => (a.2, .error e)
  | none =>
    if sumWeights validators ≠ 1 then (a.2, .error .weightsSumIncorrect)
    else
      let basket : Basket :=
        { Id := basketID, Denom := denom, Validators := validators,
          TotalShares := 0, TotalStakedTokens := 0, Creator := creator,
          CreationTime := blockTime, Metadata := metadata }
      let s2 := SetBasket a.2 basket
      let s3 := SetBasketByDenom s2 denom basketID
      (s3, .ok basketID)

/-- `msgServer.MintBasketToken`: validates minter, basket and staking
denom, computes the basket tokens from the pre-update rate, and adds
the minted tokens and the deposited amount to the basket's aggregates.
The bank transfers, per-validator delegations (`truncate(weight *
amount)` each) and the coin mint are external effects; the minted
amount is the output. -/
def msgMintBasketToken (stk : StakingState) (validAcc : String → Bool)
    (_blockTime : ℤ) (s : LstState) (msg : MsgMintBasketToken) :
    LstState × Except Err ℤ :=
  if ¬ validAcc msg.Minter then (s, .error .invalidMinter)
  else
    match GetBasket s msg.BasketId with
    | none => (s, .error .basketNotFound)
    | some basket =>
      if msg.Amount.denom ≠ stk.bondDenom then (s, .error .invalidStakingDenom)
      else
        let basketTokenAmount := calculateBasketTokensToMint basket msg.Amount.amount
        let basket2 :=
          { basket with
            TotalShares := basket.TotalShares + (basketTokenAmount : ℚ),
            TotalStakedTokens := basket.TotalStakedTokens + msg.Amount.amount }
        (SetBasket s basket2, .ok basketTokenAmount)

/-- `msgServer.RedeemBasketToken`: validates redeemer, basket and the
basket-token denom; computes `underlying`, starts per-validator
unbonding of `truncate(weight * underlying)` (zero amounts skipped,
summed into `totalUnbonding`), inserts the pending redemption with
`completionTime = blockTime + unbondingTime`, and subtracts the burned
shares and `totalUnbonding` from the basket.  Output: the redemption ID
and the completion time. -/
def msgRedeemBasketToken (stk : StakingState) (validAcc : String → Bool)
    (blockTime : ℤ) (s : LstState) (msg : MsgRedeemBasketToken) :
    LstState × Except Err (Nat × ℤ) :=
  if ¬ validAcc msg.Redeemer then (s, .error .invalidRedeemer)
  else
    match GetBasket s msg.BasketId with
    | none => (s, .error .basketNotFound)
    | some basket =>
      if msg.Amount.denom ≠ GetBasketTokenDenom msg.BasketId then
        (s, .error .invalidBasketDenom)
      else
        let underlyingAmount := calculateUnderlyingTokensToRedeem basket msg.Amount.amount
        let totalUnbondingAmount := totalUnbondingOf basket.Validators underlyingAmount
        let completionTime := blockTime + stk.unbondingTime
        let c := CreatePendingRedemption s msg.BasketId msg.Redeemer
          (msg.Amount.amount : ℚ) totalUnbondingAmount completionTime blockTime
        let basket2 :=
          { basket with
            TotalShares := basket.TotalShares - (msg.Amount.amount : ℚ),
            TotalStakedTokens := basket.TotalStakedTokens - totalUnbondingAmount }
        (SetBasket c.2 basket2, .ok (c.1, completionTime))

/-- `Keeper.ConvertBasketToBasket` (`keeper/pending.go`): burns the
converted shares, redelegates proportionally (external effect),
subtracts the shares and the transferred tokens from the source basket,
mints `tokensToTransfer / rate(target)` new shares (the truncated part
is the coin mint, the output here), and adds the untruncated share
quotient and the transferred tokens to the target basket. -/
def ConvertBasketToBasket (s : LstState) (_delegator : String)
    (fromBasketID toBasketID : String) (sharesToConvert : ℚ) :
    LstState × Except Err ℤ :=
  match GetBasket s fromBasketID with
  | none => (s, .error .basketNotFound)
  | some fromBasket =>
    match GetBasket s toBasketID with
    | none => (s, .error .basketNotFound)
    | some toBasket =>
      let exchangeRate := GetBasketExchangeRate fromBasket
      let tokensToTransfer := TruncateInt (sharesToConvert * exchangeRate)
      let fromBasket2 :=
        { fromBasket with
          TotalShares := fromBasket.TotalShares - sharesToConvert,
          TotalStakedTokens := fromBasket.TotalStakedTokens - tokensToTransfer }
      let s1 := SetBasket s fromBasket2
      let toExchangeRate := GetBasketExchangeRate toBasket
      let newShares := (tokensToTransfer : ℚ) / toExchangeRate
      let toBasket2 :=
        { toBasket with
          TotalShares := toBasket.TotalShares + newShares,
          TotalStakedTokens := toBasket.TotalStakedTokens + tokensToTransfer }
      let s2 := SetBasket s1 toBasket2
      (s2, .ok (TruncateInt newShares))

/-- `Keeper.ConvertDelegationToBasket` (`keeper/pending.go`):
redelegates proportionally (external effect), mints
`amount / rate(basket)` shares to the delegator (the truncated part is
the coin mint, the output here), and adds the untruncated share
quotient and the full amount to the basket's aggregates. -/
def ConvertDelegationToBasket (s : LstState) (_delegator : String)
    (_validatorAddr : String) (amount : ℤ) (basketID : String) :
    LstState × Except Err ℤ :=
  match GetBasket s basketID with
  | none => (s, .error .basketNotFound)
  | some basket =>
    let exchangeRate := GetBasketExchangeRate basket
    let sharesToMint := (amount : ℚ) / exchangeRate
    let basket2 :=
      { basket with
        TotalShares := basket.TotalShares + sharesToMint,
        TotalStakedTokens := basket.TotalStakedTokens + amount }
    (SetBasket s basket2, .ok (TruncateInt sharesToMint))

/-! ### `MsgCreateBasket.ValidateBasic` (`types/msgs.go`) -/

/-- `types.ValidateBasketMetadata`: bounded lengths. -/
def ValidateBasketMetadata (metadata : BasketMetadata) : Bool :=
  metadata.Name.length ≤ 128 && metadata.Description.length ≤ 512 &&
    metadata.Symbol.length ≤ 32

/-- The per-validator loop of `MsgCreateBasket.ValidateBasic`: address
format, duplicates, and weight positivity, in order. -/
def checkValidatorsBasic (validVal : String → Bool) (seen : List String) :
    List ValidatorWeight → Option Err
  | [] => none
  | val :: rest =>
    if ¬ validVal val.ValidatorAddress then some .vbValidatorAddr
    else if val.ValidatorAddress ∈ seen then some .vbDuplicateValidator
    else if ¬ (0 < val.Weight) then some .vbWeightNotPositive
    else checkValidatorsBasic validVal (val.ValidatorAddress :: seen) rest

/-- `MsgCreateBasket.ValidateBasic`: creator address, non-empty
validator list, the per-validator loop, weight sum within `1e-10` of
one, and metadata bounds. -/
def MsgCreateBasketValidateBasic (validAcc validVal : String → Bool)
    (msg : MsgCreateBasket) : Option Err :=
  if ¬ validAcc msg.Creator then some .vbCreator
  else if msg.Validators = [] then some .vbNoValidators
  else
    match checkValidatorsBasic validVal [] msg.Validators with
    | some e => some e
    | none =>
      if |sumWeights msg.Validators - 1| > 1 / 10 ^ 10 then some .vbWeightsSum
      else if ¬ ValidateBasketMetadata msg.Metadata then some .vbMetadata
      else none

/-- The full creation entry point: the host runs `ValidateBasic` before
dispatching to `msgServer.CreateBasket`. -/
def createBasketChecked (stk : StakingState) (validAcc validVal : String → Bool)
    (blockTime : ℤ) (s : LstState) (msg : MsgCreateBasket) :
    LstState × Except Err (String × String) :=
  match MsgCreateBasketValidateBasic validAcc validVal msg with
  | some e => (s, .error e)
  | none => msgCreateBasket stk validAcc validVal blockTime s msg

/-! ### ID allocation sequences -/

/-- The IDs returned by `n` consecutive `GetNextBasketID` calls. -/
def basketIdAllocs : LstState → Nat → List Nat
  | _, 0 => []
  | s, n + 1 =>
    let a := GetNextBasketID s
    a.1 :: basketIdAllocs a.2 n

/-- The state after `n` consecutive `GetNextBasketID` calls. -/
def basketIdStateAfter : LstState → Nat → LstState
  | s, 0 => s
  | s, n + 1 => basketIdStateAfter (GetNextBasketID s).2 n

/-- The IDs returned by `n` consecutive `GetNextPendingID` calls. -/
def pendingIdAllocs : LstState → Nat → List Nat
  | _, 0 => []
  | s, n + 1 =>
    let a := GetNextPendingID s
    a.1 :: pendingIdAllocs a.2 n

/-- The state after `n` consecutive `GetNextPendingID` calls. -/
def pendingIdStateAfter : LstState → Nat → LstState
  | s, 0 => s
  | s, n + 1 => pendingIdStateAfter (GetNextPendingID s).2 n

/-- The first ID a counter cell will hand out (1 for an absent key). -/
def ctrVal : Option Nat → Nat
  | none => 1
  | some c => c

theorem ctrVal_some (c : Nat) : ctrVal (some c) = c := rfl

theorem ctrVal_none : ctrVal none = 1 := rfl

theorem GetNextBasketID_fst (s : LstState) :
    (GetNextBasketID s).1 = ctrVal s.nextBasketId := by
  cases hc : s.nextBasketId <;> simp [GetNextBasketID, ctrVal, hc]

theorem GetNextBasketID_snd (s : LstState)
    (h : ctrVal s.nextBasketId + 1 < 2 ^ 64) :
    (GetNextBasketID s).2.nextBasketId = some (ctrVal s.nextBasketId + 1) := by
  cases hc : s.nextBasketId with
  | none =>
    rw [hc] at h
    simp only [GetNextBasketID, hc, SetNextBasketID, ctrVal_none]
    congr 1
  | some c =>
    rw [hc, ctrVal_some] at h
    simp only [GetNextBasketID, hc, SetNextBasketID, ctrVal_some]
    congr 1
    omega

theorem GetNextPendingID_fst (s : LstState) :
    (GetNextPendingID s).1 = ctrVal s.nextPendingId := by
  cases hc : s.nextPendingId <;> simp [GetNextPendingID, ctrVal, hc]

theorem GetNextPendingID_snd (s : LstState)
    (h : ctrVal s.nextPendingId + 1 < 2 ^ 64) :
    (GetNextPendingID s).2.nextPendingId = some (ctrVal s.nextPendingId + 1) := by
  cases hc : s.nextPendingId with
  | none =>
    rw [hc] at h
    simp only [GetNextPendingID, hc, SetNextPendingID, ctrVal_none]
    congr 1
  | some c =>
    rw [hc, ctrVal_some] at h
    simp only [GetNextPendingID, hc, SetNextPendingID, ctrVal_some]
    congr 1
    omega

theorem basketIdAllocs_eq_range (s : LstState) (n : Nat)
    (h : ctrVal s.nextBasketId + n < 2 ^ 64) :
    basketIdAllocs s n = List.range' (ctrVal s.nextBasketId) n := by
  induction n generalizing s with
  | zero => rfl
  | succ m ih =>
    have h1 : ctrVal s.nextBasketId + 1 < 2 ^ 64 := by omega
    have hsnd := GetNextBasketID_snd s h1
    have hrec := ih (GetNextBasketID s).2 (by rw [hsnd, ctrVal_some]; omega)
    rw [List.range'_succ]
    simp only [basketIdAllocs, GetNextBasketID_fst s]
    rw [hrec, hsnd, ctrVal_some]

theorem basketIdStateAfter_ctr (s : LstState) (n : Nat)
    (h : ctrVal s.nextBasketId + n < 2 ^ 64) (hn : 0 < n) :
    (basketIdStateAfter s n).nextBasketId = some (ctrVal s.nextBasketId + n) := by
  induction n generalizing s with
  | zero => omega
  | succ m ih =>
    have h1 : ctrVal s.nextBasketId + 1 < 2 ^ 64 := by omega
    have hsnd := GetNextBasketID_snd s h1
    cases Nat.eq_zero_or_pos m with
    | inl hm =>
      subst hm
      simpa [basketIdStateAfter] using hsnd
    | inr hm =>
      have hrec := ih (GetNextBasketID s).2 (by rw [hsnd, ctrVal_some]; omega) hm
      rw [hsnd, ctrVal_some] at hrec
      simp only [basketIdStateAfter]
      rw [hrec]
      congr 1
      omega

theorem pendingIdAllocs_eq_range (s : LstState) (n : Nat)
    (h : ctrVal s.nextPendingId + n < 2 ^ 64) :
    pendingIdAllocs s n = List.range' (ctrVal s.nextPendingId) n := by
  induction n generalizing s with
  | zero => rfl
  | succ m ih =>
    have h1 : ctrVal s.nextPendingId + 1 < 2 ^ 64 := by omega
    have hsnd := GetNextPendingID_snd s h1
    have hrec := ih (GetNextPendingID s).2 (by rw [hsnd, ctrVal_some]; omega)
    rw [List.range'_succ]
    simp only [pendingIdAllocs, GetNextPendingID_fst s]
    rw [hrec, hsnd, ctrVal_some]

theorem pendingIdStateAfter_ctr (s : LstState) (n : Nat)
    (h : ctrVal s.nextPendingId + n < 2 ^ 64) (hn : 0 < n) :
    (pendingIdStateAfter s n).nextPendingId = some (ctrVal s.nextPendingId + n) := by
  induction n generalizing s with
  | zero => omega
  | succ m ih =>
    have h1 : ctrVal s.nextPendingId + 1 < 2 ^ 64 := by omega
    have hsnd := GetNextPendingID_snd s h1
    cases Nat.eq_zero_or_pos m with
    | inl hm =>
      subst hm
      simpa [pendingIdStateAfter] using hsnd
    | inr hm =>
      have hrec := ih (GetNextPendingID s).2 (by rw [hsnd, ctrVal_some]; omega) hm
      rw [hsnd, ctrVal_some] at hrec
      simp only [pendingIdStateAfter]
      rw [hrec]
      congr 1
      omega

/-! ### Index consistency of the pending-redemption queue -/

theorem kvGet_mem {κ α : Type} [DecidableEq κ]
    {l : List (κ × α)} {k : κ} {v : α} (h : kvGet l k = some v) : (k, v) ∈ l := by
  simp only [kvGet, Option.map_eq_some'] at h
  obtain ⟨p, hp, hv⟩ := h
  have hmem := List.mem_of_find?_eq_some hp
  have hkey := List.find?_some hp
  simp only [decide_eq_true_eq] at hkey
  have : p = (k, v) := by
    cases p
    simp only [Prod.mk.injEq]
    exact ⟨hkey, hv⟩
  exact this ▸ hmem

theorem mem_keyInsert (k a : List Nat) (l : List (List Nat)) :
    k ∈ keyInsert a l ↔ k = a ∨ k ∈ l := by
  simp only [keyInsert]
  split
  · constructor
    · exact Or.inr
    · rintro (rfl | h) <;> [assumption; assumption]
  · simp [List.mem_cons]

theorem mem_keyRemove (k a : List Nat) (l : List (List Nat)) :
    k ∈ keyRemove a l ↔ k ∈ l ∧ k ≠ a := by
  simp [keyRemove]

/-- Anatomy of an index key when the queried string matches the one in
the key: the prefix test succeeds, the suffix has exactly eight bytes,
and the extracted ID is the one encoded. -/
theorem keyQuery_of_eq (u d : String) (i : Nat) (hi : i < 2 ^ 64) (hEq : u = d) :
    hasPfx (strBytes u ++ [47]) (strBytes d ++ 47 :: beBytes8 i) = true ∧
    ((strBytes d ++ 47 :: beBytes8 i).drop (strBytes u ++ [47]).length).length = 8 ∧
    extractIDFromBytes ((strBytes d ++ 47 :: beBytes8 i).drop (strBytes u ++ [47]).length) = i := by
  subst hEq
  have hform : strBytes u ++ 47 :: beBytes8 i = (strBytes u ++ [47]) ++ beBytes8 i := by
    simp
  rw [hform, List.drop_left]
  refine ⟨(hasPfx_iff _ _).mpr ⟨beBytes8 i, rfl⟩, beBytes8_length i, ?_⟩
  rw [extractIDFromBytes, if_pos (beBytes8_length i)]
  exact beValue_beBytes8 i hi

/-- Anatomy of an index key in the other direction: if the prefix test
succeeds and the suffix has exactly eight bytes, the queried string is
the one encoded in the key. -/
theorem keyQuery_eq (u d : String) (i : Nat)
    (h1 : hasPfx (strBytes u ++ [47]) (strBytes d ++ 47 :: beBytes8 i) = true)
    (h2 : ((strBytes d ++ 47 :: beBytes8 i).drop (strBytes u ++ [47]).length).length = 8) :
    u = d := by
  obtain ⟨t, ht⟩ := (hasPfx_iff _ _).mp h1
  have hlt : t.length = 8 := by
    rw [ht, List.drop_left] at h2
    exact h2
  have hlen : (strBytes d).length = (strBytes u).length := by
    have hl := congrArg List.length ht
    simp only [List.length_append, List.length_cons, List.length_nil,
      beBytes8_length] at hl
    omega
  have hform : (strBytes d ++ [47]) ++ beBytes8 i = (strBytes u ++ [47]) ++ t := by
    simpa using ht
  have hlen2 : (strBytes d ++ [47]).length = (strBytes u ++ [47]).length := by
    simp [hlen]
  obtain ⟨hpre, _⟩ := List.append_inj hform hlen2
  obtain ⟨hstr, _⟩ := List.append_inj hpre (by simp [hlen])
  exact (strBytes_inj hstr).symm

/-- The states reachable from the empty store by the pending-redemption
write operations: insertions carry a `uint64` ID (the Go field type)
that is not currently stored, deletions are handed the stored record. -/
inductive ReachablePending : LstState → Prop where
  | empty : ReachablePending emptyLstState
  | set (s : LstState) (r : PendingRedemption) (hs : ReachablePending s)
      (hid : r.Id < 2 ^ 64) (hfresh : GetPendingRedemption s r.Id = none) :
      ReachablePending (SetPendingRedemption s r)
  | del (s : LstState) (r : PendingRedemption) (hs : ReachablePending s)
      (hstored : GetPendingRedemption s r.Id = some r) :
      ReachablePending (DeletePendingRedemption s r)

/-- The queue/index consistency invariant: primary records are keyed by
their own `Id` (a `uint64`), keys are unique, and each index region
holds exactly the keys derived from the primary records. -/
def PendingIndexInv (s : LstState) : Prop :=
  (∀ p ∈ s.pendingRedemptions, p.2.Id = p.1 ∧ p.1 < 2 ^ 64) ∧
  (s.pendingRedemptions.map Prod.fst).Nodup ∧
  (∀ k, k ∈ s.redemptionByUser ↔
    ∃ p ∈ s.pendingRedemptions, k = RedemptionByUserStoreKey p.2.Delegator p.1) ∧
  (∀ k, k ∈ s.redemptionByBasket ↔
    ∃ p ∈ s.pendingRedemptions, k = RedemptionByBasketStoreKey p.2.BasketId p.1)

theorem reachable_pendingIndexInv {s : LstState} (h : ReachablePending s) :
    PendingIndexInv s := by
  induction h with
  | empty =>
    refine ⟨?_, ?_, ?_, ?_⟩ <;> simp [emptyLstState]
  | set s r hs hid hfresh ih =>
    obtain ⟨ih1, ih2, ih3, ih4⟩ := ih
    have hfr : ∀ p ∈ s.pendingRedemptions, p.1 ≠ r.Id :=
      (kvGet_eq_none_iff _ _).mp hfresh
    have hfilter : s.pendingRedemptions.filter (fun p => decide (p.1 ≠ r.Id)) =
        s.pendingRedemptions :=
      List.filter_eq_self.mpr (fun p hp => by simpa using hfr p hp)
    refine ⟨?_, ?_, ?_, ?_⟩
    · intro p hp
      simp only [SetPendingRedemption, kvSet, hfilter, List.mem_cons] at hp
      rcases hp with rfl | hp
      · exact ⟨rfl, hid⟩
      · exact ih1 p hp
    · simp only [SetPendingRedemption, kvSet, hfilter, List.map_cons, List.nodup_cons]
      refine ⟨?_, ih2⟩
      intro hmem
      obtain ⟨p, hp, hpk⟩ := List.mem_map.mp hmem
      exact hfr p hp hpk
    · intro k
      simp only [SetPendingRedemption, kvSet, hfilter, mem_keyInsert, ih3,
        List.mem_cons]
      constructor
      · rintro (rfl | ⟨p, hp, rfl⟩)
        · exact ⟨(r.Id, r), Or.inl rfl, rfl⟩
        · exact ⟨p, Or.inr hp, rfl⟩
      · rintro ⟨p, rfl | hp, rfl⟩
        · exact Or.inl rfl
        · exact Or.inr ⟨p, hp, rfl⟩
    · intro k
      simp only [SetPendingRedemption, kvSet, hfilter, mem_keyInsert, ih4,
        List.mem_cons]
      constructor
      · rintro (rfl | ⟨p, hp, rfl⟩)
        · exact ⟨(r.Id, r), Or.inl rfl, rfl⟩
        · exact ⟨p, Or.inr hp, rfl⟩
      · rintro ⟨p, rfl | hp, rfl⟩
        · exact Or.inl rfl
        · exact Or.inr ⟨p, hp, rfl⟩
  | del s r hs hstored ih =>
    obtain ⟨ih1, ih2, ih3, ih4⟩ := ih
    have hrid : r.Id < 2 ^ 64 := (ih1 _ (kvGet_mem hstored)).2
    have hval : ∀ p ∈ s.pendingRedemptions, p.1 = r.Id → p.2 = r := by
      intro p hp hpk
      have : kvGet s.pendingRedemptions p.1 = some p.2 := by
        apply kvGet_eq_some_of_mem _ _ _ _ ih2
        cases p
        exact hp
      rw [hpk] at this
      rw [GetPendingRedemption] at hstored
      rw [hstored] at this
      exact (Option.some.injEq _ _ ▸ this).symm
    refine ⟨?_, ?_, ?_, ?_⟩
    · intro p hp
      simp only [DeletePendingRedemption, kvDel, List.mem_filter] at hp
      exact ih1 p hp.1
    · simp only [DeletePendingRedemption, kvDel]
      exact (((List.filter_sublist _).map Prod.fst).nodup ih2)
    · intro k
      simp only [DeletePendingRedemption, kvDel, mem_keyRemove, ih3,
        List.mem_filter, decide_eq_true_eq]
      constructor
      · rintro ⟨⟨p, hp, rfl⟩, hne⟩
        refine ⟨p, ⟨hp, ?_⟩, rfl⟩
        intro hpk
        exact hne (by rw [hval p hp hpk, hpk])
      · rintro ⟨p, ⟨hp, hpk⟩, rfl⟩
        refine ⟨⟨p, hp, rfl⟩, ?_⟩
        intro hkey
        obtain ⟨_, hids⟩ := userKey_inj (ih1 p hp).2 hrid hkey
        exact hpk hids
    · intro k
      simp only [DeletePendingRedemption, kvDel, mem_keyRemove, ih4,
        List.mem_filter, decide_eq_true_eq]
      constructor
      · rintro ⟨⟨p, hp, rfl⟩, hne⟩
        refine ⟨p, ⟨hp, ?_⟩, rfl⟩
        intro hpk
        exact hne (by rw [hval p hp hpk, hpk])
      · rintro ⟨p, ⟨hp, hpk⟩, rfl⟩
        refine ⟨⟨p, hp, rfl⟩, ?_⟩
        intro hkey
        obtain ⟨_, hids⟩ := basketKey_inj (ih1 p hp).2 hrid hkey
        exact hpk hids

theorem mem_byUser_iff {s : LstState} (hInv : PendingIndexInv s)
    (u : String) (r : PendingRedemption) :
    r ∈ GetPendingRedemptionsByUser s u ↔
      (∃ i, (i, r) ∈ s.pendingRedemptions) ∧ r.Delegator = u := by
  obtain ⟨h1, h2, h3, _⟩ := hInv
  simp only [GetPendingRedemptionsByUser, List.mem_filterMap]
  constructor
  · rintro ⟨k, hk, hf⟩
    obtain ⟨p, hp, rfl⟩ := (h3 k).mp hk
    simp only [RedemptionByUserStoreKey] at hf
    by_cases hpfx : hasPfx (strBytes u ++ [47])
        (strBytes p.2.Delegator ++ 47 :: beBytes8 p.1) = true
    · rw [if_pos hpfx] at hf
      by_cases hl8 : ((strBytes p.2.Delegator ++ 47 :: beBytes8 p.1).drop
          (strBytes u ++ [47]).length).length = 8
      · rw [if_pos hl8] at hf
        have hud := keyQuery_eq u p.2.Delegator p.1 hpfx hl8
        obtain ⟨_, _, hextract⟩ :=
          keyQuery_of_eq u p.2.Delegator p.1 (h1 p hp).2 hud
        rw [hextract] at hf
        have hget : GetPendingRedemption s p.1 = some p.2 := by
          apply kvGet_eq_some_of_mem _ _ _ _ h2
          cases p
          exact hp
        rw [hget] at hf
        obtain rfl := Option.some.inj hf
        exact ⟨⟨p.1, by cases p; exact hp⟩, hud.symm⟩
      · rw [if_neg hl8] at hf
        cases hf
    · rw [if_neg hpfx] at hf
      cases hf
  · rintro ⟨⟨i, hmem⟩, hdel⟩
    have hir : r.Id = i ∧ i < 2 ^ 64 := h1 (i, r) hmem
    refine ⟨RedemptionByUserStoreKey r.Delegator i, (h3 _).mpr ⟨(i, r), hmem, rfl⟩, ?_⟩
    simp only [RedemptionByUserStoreKey]
    obtain ⟨hpfx, hl8, hextract⟩ := keyQuery_of_eq u r.Delegator i hir.2 hdel.symm
    rw [if_pos hpfx, if_pos hl8, hextract]
    apply kvGet_eq_some_of_mem _ _ _ hmem h2

theorem mem_byBasket_iff {s : LstState} (hInv : PendingIndexInv s)
    (b : String) (r : PendingRedemption) :
    r ∈ GetPendingRedemptionsByBasket s b ↔
      (∃ i, (i, r) ∈ s.pendingRedemptions) ∧ r.BasketId = b := by
  obtain ⟨h1, h2, _, h4⟩ := hInv
  simp only [GetPendingRedemptionsByBasket, List.mem_filterMap]
  constructor
  · rintro ⟨k, hk, hf⟩
    obtain ⟨p, hp, rfl⟩ := (h4 k).mp hk
    simp only [RedemptionByBasketStoreKey] at hf
    by_cases hpfx : hasPfx (strBytes b ++ [47])
        (strBytes p.2.BasketId ++ 47 :: beBytes8 p.1) = true
    · rw [if_pos hpfx] at hf
      by_cases hl8 : ((strBytes p.2.BasketId ++ 47 :: beBytes8 p.1).drop
          (strBytes b ++ [47]).length).length = 8
      · rw [if_pos hl8] at hf
        have hud := keyQuery_eq b p.2.BasketId p.1 hpfx hl8
        obtain ⟨_, _, hextract⟩ :=
          keyQuery_of_eq b p.2.BasketId p.1 (h1 p hp).2 hud
        rw [hextract] at hf
        have hget : GetPendingRedemption s p.1 = some p.2 := by
          apply kvGet_eq_some_of_mem _ _ _ _ h2
          cases p
          exact hp
        rw [hget] at hf
        obtain rfl := Option.some.inj hf
        exact ⟨⟨p.1, by cases p; exact hp⟩, hud.symm⟩
      · rw [if_neg hl8] at hf
        cases hf
    · rw [if_neg hpfx] at hf
      cases hf
  · rintro ⟨⟨i, hmem⟩, hbid⟩
    have hir : r.Id = i ∧ i < 2 ^ 64 := h1 (i, r) hmem
    refine ⟨RedemptionByBasketStoreKey r.BasketId i, (h4 _).mpr ⟨(i, r), hmem, rfl⟩, ?_⟩
    simp only [RedemptionByBasketStoreKey]
    obtain ⟨hpfx, hl8, hextract⟩ := keyQuery_of_eq b r.BasketId i hir.2 hbid.symm
    rw [if_pos hpfx, if_pos hl8, hextract]
    apply kvGet_eq_some_of_mem _ _ _ hmem h2

/-! ### Claim theorems -/

/-- Sample basket used for the genesis round-trip evaluation. -/
def basketG : Basket :=
  { Id := "1", Denom := "bTIA-1",
    Validators := [{ ValidatorAddress := "valoper1", Weight := 1 }],
    TotalShares := 5, TotalStakedTokens := 5, Creator := "celestia1creator",
    CreationTime := 0, Metadata := { Name := "", Description := "", Symbol := "" } }

/-- A state holding one basket and a basket-ID counter of 7. -/
def stateG : LstState := SetNextBasketID (SetBasket emptyLstState basketG) 7

/-- Claim C1, evaluation at a concrete state: `ExportGenesis` does not
return the module's persisted state.  A state storing one basket and a
counter of 7 exports an empty basket list and counter 1 (the export is
`DefaultGenesis()` verbatim), and `InitGenesis` ignores the genesis
object, so the round trip loses the basket. -/
theorem c1_export_genesis_drops_state :
    GetAllBaskets stateG = [basketG] ∧
    stateG.nextBasketId = some 7 ∧
    (ExportGenesis stateG).Baskets = [] ∧
    (ExportGenesis stateG).NextBasketId = 1 ∧
    (ExportGenesis stateG).PendingRedemptions = [] ∧
    GetAllBaskets (InitGenesis emptyLstState (ExportGenesis stateG)) = [] ∧
    (InitGenesis emptyLstState (ExportGenesis stateG)).nextBasketId = none := by
  refine ⟨rfl, rfl, rfl, rfl, rfl, rfl, rfl⟩

/-- Claim C9: a stored pending redemption is listed by
`GetMaturePendingRedemptions` exactly when its completion time is not
after the current block time: absent for `now < t`, present for
`t ≤ now`. -/
theorem c9_maturity_listing (s : LstState) (now : ℤ) (r : PendingRedemption)
    (hmem : r ∈ GetAllPendingRedemptions s) :
    r ∈ GetMaturePendingRedemptions s now ↔ r.CompletionTime ≤ now := by
  simp [GetMaturePendingRedemptions, List.mem_filter, hmem]

/-- Pending redemption used in concrete maturity / index evaluations. -/
def redemptionM : PendingRedemption :=
  { Id := 1, BasketId := "1", Delegator := "celestia1redeemer",
    SharesBurned := 5, TokensToReceive := 5, CompletionTime := 100,
    CreationTime := 0 }

/-- State holding `redemptionM`. -/
def stateM : LstState := SetPendingRedemption emptyLstState redemptionM

/-- Witness for C9: at completion time 100 the record is absent from the
mature listing at time 99 and present at times 100 and 101. -/
theorem c9_maturity_listing_witness :
    (redemptionM ∉ GetMaturePendingRedemptions stateM 99) ∧
    (redemptionM ∈ GetMaturePendingRedemptions stateM 100) ∧
    (redemptionM ∈ GetMaturePendingRedemptions stateM 101) := by
  have hmem : redemptionM ∈ GetAllPendingRedemptions stateM := by
    simp [GetAllPendingRedemptions, stateM, SetPendingRedemption, kvSet,
      emptyLstState]
  refine ⟨?_, ?_, ?_⟩
  · intro hin
    have := (c9_maturity_listing stateM 99 redemptionM hmem).mp hin
    simp [redemptionM] at this
  · exact (c9_maturity_listing stateM 100 redemptionM hmem).mpr (by norm_num [redemptionM])
  · exact (c9_maturity_listing stateM 101 redemptionM hmem).mpr (by norm_num [redemptionM])

/-- Claim C4: minting into a basket with zero `TotalShares` returns the
deposited amount unchanged; otherwise the basket tokens are the floor
of `amount / rate` with `rate = TotalStakedTokens / TotalShares` taken
from the stored aggregates. -/
theorem c4_mint_token_amount (b : Basket) (x : ℤ) :
    (b.TotalShares = 0 → calculateBasketTokensToMint b x = x) ∧
    (b.TotalShares ≠ 0 → 0 ≤ x → 0 < b.TotalShares → 0 < b.TotalStakedTokens →
      calculateBasketTokensToMint b x =
        ⌊(x : ℚ) / ((b.TotalStakedTokens : ℚ) / b.TotalShares)⌋) := by
  constructor
  · intro h
    simp [calculateBasketTokensToMint, h]
  · intro h hx hS hT
    simp only [calculateBasketTokensToMint, if_neg h, GetBasketExchangeRate]
    apply TruncateInt_eq_floor
    apply div_nonneg (by exact_mod_cast hx)
    apply le_of_lt
    apply div_pos (by exact_mod_cast hT) hS

/-- Basket with no shares yet (first mint). -/
def basketZ : Basket :=
  { basketG with
    Id := "2"
    Denom := "bTIA-2"
    TotalShares := 0
    TotalStakedTokens := 0 }

/-- Basket with 2 shares backing 3 staked tokens (rate 3/2). -/
def basketR : Basket :=
  { basketG with
    Id := "3"
    Denom := "bTIA-3"
    TotalShares := 2
    TotalStakedTokens := 3 }

/-- Witness for C4 at both branches: first mint of 7 gives exactly 7;
minting 7 at rate 3/2 gives `floor(7 / (3/2))`. -/
theorem c4_mint_token_amount_witness :
    calculateBasketTokensToMint basketZ 7 = 7 ∧
    calculateBasketTokensToMint basketR 7 =
      ⌊((7 : ℤ) : ℚ) / ((basketR.TotalStakedTokens : ℚ) / basketR.TotalShares)⌋ := by
  constructor
  · exact (c4_mint_token_amount basketZ 7).1 rfl
  · exact (c4_mint_token_amount basketR 7).2 (by norm_num [basketR, basketG])
      (by norm_num) (by norm_num [basketR, basketG]) (by norm_num [basketR, basketG])

/-- The state whose basket-ID counter sits at the largest `uint64`. -/
def stateWrap : LstState := { emptyLstState with nextBasketId := some (2 ^ 64 - 1) }

/-- Counterexample to claim C8 as stated: starting from the state whose
stored counter is `2^64 - 1` (a state the claim quantifies over), the
first `GetNextBasketID` call returns `2^64 - 1` but stores `0`
(`uint64` wraparound), so the stored counter does not exceed the
returned value and the second call returns a smaller, reusable ID. -/
theorem c8_counterexample_wraparound :
    basketIdAllocs stateWrap 2 = [2 ^ 64 - 1, 0] ∧
    (basketIdStateAfter stateWrap 1).nextBasketId = some 0 ∧
    ¬ (2 ^ 64 - 1 < (0 : Nat)) := by
  refine ⟨?_, ?_, by omega⟩
  · show basketIdAllocs stateWrap 2 = [2 ^ 64 - 1, 0]
    have h1 : (2 ^ 64 - 1 + 1) % 2 ^ 64 = 0 := by norm_num
    simp [basketIdAllocs, stateWrap, GetNextBasketID, SetNextBasketID,
      emptyLstState, h1]
  · have h1 : (2 ^ 64 - 1 + 1) % 2 ^ 64 = 0 := by norm_num
    simp [basketIdStateAfter, stateWrap, GetNextBasketID, SetNextBasketID,
      emptyLstState, h1]

/-- Claim C8 as amended (no 64-bit wraparound during the run): along any
sequence of `n` allocations from any state whose counter stays below
`2^64`, both ID streams are strictly increasing, and after each call
the stored counter strictly exceeds the ID just returned. -/
theorem c8_counters_strictly_increasing (s : LstState) (n : Nat)
    (hb : ctrVal s.nextBasketId + n < 2 ^ 64)
    (hp : ctrVal s.nextPendingId + n < 2 ^ 64) :
    List.Pairwise (· < ·) (basketIdAllocs s n) ∧
    List.Pairwise (· < ·) (pendingIdAllocs s n) ∧
    (∀ k, (hk : k < (basketIdAllocs s n).length) → ∃ c,
      (basketIdStateAfter s (k + 1)).nextBasketId = some c ∧
      (basketIdAllocs s n).get ⟨k, hk⟩ < c) ∧
    (∀ k, (hk : k < (pendingIdAllocs s n).length) → ∃ c,
      (pendingIdStateAfter s (k + 1)).nextPendingId = some c ∧
      (pendingIdAllocs s n).get ⟨k, hk⟩ < c) := by
  have hbl := basketIdAllocs_eq_range s n hb
  have hpl := pendingIdAllocs_eq_range s n hp
  refine ⟨?_, ?_, ?_, ?_⟩
  · rw [hbl]
    exact List.pairwise_lt_range' _ _
  · rw [hpl]
    exact List.pairwise_lt_range' _ _
  · intro k hk
    have hkn : k < n := by
      have hlen := hk
      rw [hbl, List.length_range'] at hlen
      exact hlen
    refine ⟨ctrVal s.nextBasketId + (k + 1),
      basketIdStateAfter_ctr s (k + 1) (by omega) (Nat.succ_pos k), ?_⟩
    have hget : (basketIdAllocs s n).get ⟨k, hk⟩ = ctrVal s.nextBasketId + k := by
      simp only [List.get_eq_getElem, hbl, List.getElem_range']
      ring
    rw [hget]
    omega
  · intro k hk
    have hkn : k < n := by
      have hlen := hk
      rw [hpl, List.length_range'] at hlen
      exact hlen
    refine ⟨ctrVal s.nextPendingId + (k + 1),
      pendingIdStateAfter_ctr s (k + 1) (by omega) (Nat.succ_pos k), ?_⟩
    have hget : (pendingIdAllocs s n).get ⟨k, hk⟩ = ctrVal s.nextPendingId + k := by
      simp only [List.get_eq_getElem, hpl, List.getElem_range']
      ring
    rw [hget]
    omega

/-- A state with basket counter 5 and pending counter unset. -/
def stateC8 : LstState := { emptyLstState with nextBasketId := some 5 }

/-- Witness for the amended C8: three allocations from a concrete state
yield strictly increasing basket and pending IDs. -/
theorem c8_counters_strictly_increasing_witness :
    List.Pairwise (· < ·) (basketIdAllocs stateC8 3) ∧
    List.Pairwise (· < ·) (pendingIdAllocs stateC8 3) := by
  have h := c8_counters_strictly_increasing stateC8 3 (by norm_num [stateC8, ctrVal])
    (by norm_num [stateC8, emptyLstState, ctrVal])
  exact ⟨h.1, h.2.1⟩

theorem ite_some_eq_none {α : Type} {c : Prop} [Decidable c] {x : α}
    {y : Option α} (h : (if c then some x else y) = none) : ¬ c := by
  intro hc
  rw [if_pos hc] at h
  cases h

theorem validateBasic_none_tol (va vv : String → Bool) (msg : MsgCreateBasket)
    (h : MsgCreateBasketValidateBasic va vv msg = none) :
    |sumWeights msg.Validators - 1| ≤ 1 / 10 ^ 10 := by
  simp only [MsgCreateBasketValidateBasic] at h
  have h1 := ite_some_eq_none h
  rw [if_neg h1] at h
  have h2 := ite_some_eq_none h
  rw [if_neg h2] at h
  cases hcv : checkValidatorsBasic vv [] msg.Validators with
  | some e =>
    simp only [hcv] at h
    exact Option.noConfusion h
  | none =>
    simp only [hcv] at h
    exact le_of_not_lt (ite_some_eq_none h)

theorem GetNextBasketID_baskets (s : LstState) :
    (GetNextBasketID s).2.baskets = s.baskets := by
  cases hc : s.nextBasketId <;> simp [GetNextBasketID, SetNextBasketID, hc]

theorem GetNextBasketID_pendings (s : LstState) :
    (GetNextBasketID s).2.pendingRedemptions = s.pendingRedemptions := by
  cases hc : s.nextBasketId <;> simp [GetNextBasketID, SetNextBasketID, hc]

theorem GetNextBasketID_byDenom (s : LstState) :
    (GetNextBasketID s).2.basketByDenom = s.basketByDenom := by
  cases hc : s.nextBasketId <;> simp [GetNextBasketID, SetNextBasketID, hc]

theorem GetNextBasketID_byUser (s : LstState) :
    (GetNextBasketID s).2.redemptionByUser = s.redemptionByUser := by
  cases hc : s.nextBasketId <;> simp [GetNextBasketID, SetNextBasketID, hc]

theorem GetNextBasketID_byBasket (s : LstState) :
    (GetNextBasketID s).2.redemptionByBasket = s.redemptionByBasket := by
  cases hc : s.nextBasketId <;> simp [GetNextBasketID, SetNextBasketID, hc]

theorem GetNextBasketID_nextPending (s : LstState) :
    (GetNextBasketID s).2.nextPendingId = s.nextPendingId := by
  cases hc : s.nextBasketId <;> simp [GetNextBasketID, SetNextBasketID, hc]

/-- Claim C3: basket creation succeeds only when the validator weights
sum to 1 within tolerance `1e-10` (exact equality included), and a
weight sum off by more than the tolerance is rejected with the
weights-sum error with no basket stored.  Part one and two cover the
message path (`ValidateBasic` then `msgServer.CreateBasket`), part
three the `Keeper.CreateBasket` path, whose exact-equality test also
rejects everything outside the tolerance. -/
theorem c3_weight_sum_gate :
    (∀ (stk : StakingState) (va vv : String → Bool) (t : ℤ) (s : LstState)
      (msg : MsgCreateBasket) (s2 : LstState) (out : String × String),
      createBasketChecked stk va vv t s msg = (s2, .ok out) →
      |sumWeights msg.Validators - 1| ≤ 1 / 10 ^ 10) ∧
    (∀ (stk : StakingState) (va vv : String → Bool) (t : ℤ) (s : LstState)
      (msg : MsgCreateBasket),
      va msg.Creator = true → msg.Validators ≠ [] →
      checkValidatorsBasic vv [] msg.Validators = none →
      ValidateBasketMetadata msg.Metadata = true →
      |sumWeights msg.Validators - 1| > 1 / 10 ^ 10 →
      createBasketChecked stk va vv t s msg = (s, .error .vbWeightsSum)) ∧
    (∀ (stk : StakingState) (t : ℤ) (s : LstState) (creator : String)
      (vals : List ValidatorWeight) (md : BasketMetadata),
      checkValidatorsKeeper stk vals = none →
      |sumWeights vals - 1| > 1 / 10 ^ 10 →
      (KeeperCreateBasket stk t s creator vals md).2 = .error .weightsSumIncorrect ∧
      ((KeeperCreateBasket stk t s creator vals md).1).baskets = s.baskets) := by
  refine ⟨?_, ?_, ?_⟩
  · intro stk va vv t s msg s2 out h
    cases hvb : MsgCreateBasketValidateBasic va vv msg with
    | some e =>
      simp only [createBasketChecked, hvb] at h
      exact absurd (congrArg Prod.snd h) (by simp)
    | none => exact validateBasic_none_tol va vv msg hvb
  · intro stk va vv t s msg hva hne hcv hmeta hw
    have hw2 : (10 ^ 10 : ℚ)⁻¹ < |sumWeights msg.Validators - 1| := by
      rw [← one_div]
      exact hw
    have hvb : MsgCreateBasketValidateBasic va vv msg = some .vbWeightsSum := by
      simp [MsgCreateBasketValidateBasic, hva, hne, hcv, hmeta, hw2]
    simp only [createBasketChecked, hvb]
  · intro stk t s creator vals md hcv hw
    have hne : sumWeights vals ≠ 1 := by
      intro he
      rw [he] at hw
      norm_num at hw
    constructor
    · simp only [KeeperCreateBasket, hcv, if_pos hne]
    · simp only [KeeperCreateBasket, hcv, if_pos hne]
      exact GetNextBasketID_baskets s

/-- Trivial address validator used in witnesses (the address codec is
an external collaborator). -/
def allValid : String → Bool := fun _ => true

/-- Staking view used in witnesses: every validator exists and is
bonded. -/
def stkW : StakingState :=
  { getValidator := fun _ => some true, bondDenom := "utia",
    unbondingTime := 1814400 }

/-- A well-formed creation message: two validators at weight 1/2. -/
def msgC3ok : MsgCreateBasket :=
  { Creator := "celestia1creator",
    Validators :=
      [{ ValidatorAddress := "valoper1", Weight := 1 / 2 },
       { ValidatorAddress := "valoper2", Weight := 1 / 2 }],
    Metadata := { Name := "", Description := "", Symbol := "" } }

/-- A creation message whose weights sum to 11/10. -/
def msgC3bad : MsgCreateBasket :=
  { Creator := "celestia1creator",
    Validators :=
      [{ ValidatorAddress := "valoper1", Weight := 3 / 5 },
       { ValidatorAddress := "valoper2", Weight := 1 / 2 }],
    Metadata := { Name := "", Description := "", Symbol := "" } }

/-- Witness for C3: the well-formed message passes the gate (its weight
sum is within tolerance because creation succeeds on the empty store),
and the 11/10 message is rejected with the weights-sum error, leaving
the state untouched, on both creation paths. -/
theorem c3_weight_sum_gate_witness :
    |sumWeights msgC3ok.Validators - 1| ≤ 1 / 10 ^ 10 ∧
    createBasketChecked stkW allValid allValid 0 emptyLstState msgC3bad =
      (emptyLstState, .error .vbWeightsSum) ∧
    (KeeperCreateBasket stkW 0 emptyLstState "celestia1creator"
      msgC3bad.Validators msgC3bad.Metadata).2 = .error .weightsSumIncorrect := by
  have habs : |sumWeights msgC3bad.Validators - 1| = 1 / 10 := by
    rw [show sumWeights msgC3bad.Validators - 1 = 1 / 10 by
      norm_num [sumWeights, msgC3bad]]
    norm_num
  have hw : |sumWeights msgC3bad.Validators - 1| > 1 / 10 ^ 10 := by
    rw [habs]
    norm_num
  have hvbOk : MsgCreateBasketValidateBasic allValid allValid msgC3ok = none := by
    norm_num [MsgCreateBasketValidateBasic, checkValidatorsBasic,
      ValidateBasketMetadata, msgC3ok, allValid, sumWeights]
    decide
  have hcvBad : checkValidatorsBasic allValid [] msgC3bad.Validators = none := by
    norm_num [checkValidatorsBasic, msgC3bad, allValid]
    decide
  refine ⟨?_, ?_, ?_⟩
  · apply (c3_weight_sum_gate.1 stkW allValid allValid 0 emptyLstState msgC3ok _ _)
    show createBasketChecked stkW allValid allValid 0 emptyLstState msgC3ok =
      ((createBasketChecked stkW allValid allValid 0 emptyLstState msgC3ok).1,
        .ok ("1", "bTIA-1"))
    simp only [createBasketChecked, hvbOk]
    rfl
  · exact c3_weight_sum_gate.2.1 stkW allValid allValid 0 emptyLstState msgC3bad rfl
      (by decide) hcvBad rfl hw
  · exact (c3_weight_sum_gate.2.2 stkW 0 emptyLstState "celestia1creator"
      msgC3bad.Validators msgC3bad.Metadata (by decide) hw).1

theorem GetBasketExchangeRate_nonneg (b : Basket) (hSh : 0 ≤ b.TotalShares)
    (hSt : 0 ≤ b.TotalStakedTokens) : 0 ≤ GetBasketExchangeRate b := by
  rw [GetBasketExchangeRate]
  split
  · norm_num
  · exact div_nonneg (by exact_mod_cast hSt) hSh

theorem totalUnbondingOf_foldl (vals : List ValidatorWeight) (u acc : ℤ)
    (hu : 0 ≤ u) (hW : ∀ v ∈ vals, 0 ≤ v.Weight) :
    vals.foldl
      (fun a val =>
        let amt := TruncateInt (val.Weight * (u : ℚ))
        if amt = 0 then a else a + amt) acc =
    acc + (vals.map (fun v => ⌊v.Weight * (u : ℚ)⌋)).sum := by
  induction vals generalizing acc with
  | nil => simp
  | cons v rest ih =>
    have hv : 0 ≤ v.Weight := hW v (List.mem_cons_self v rest)
    have htr : TruncateInt (v.Weight * (u : ℚ)) = ⌊v.Weight * (u : ℚ)⌋ :=
      TruncateInt_eq_floor _ (mul_nonneg hv (by exact_mod_cast hu))
    have hstep :
        (let amt := TruncateInt (v.Weight * (u : ℚ))
         if amt = 0 then acc else acc + amt) = acc + ⌊v.Weight * (u : ℚ)⌋ := by
      simp only [htr]
      split
      · omega
      · rfl
    simp only [List.foldl_cons, List.map_cons, List.sum_cons, hstep]
    rw [ih _ (fun w hw => hW w (List.mem_cons_of_mem v hw))]
    ring

/-- The per-validator unbonding fold equals the sum of the floors of the
weighted amounts (nonnegative inputs; skipped zero summands do not
change the total). -/
theorem totalUnbondingOf_eq_sum (vals : List ValidatorWeight) (u : ℤ)
    (hu : 0 ≤ u) (hW : ∀ v ∈ vals, 0 ≤ v.Weight) :
    totalUnbondingOf vals u = (vals.map (fun v => ⌊v.Weight * (u : ℚ)⌋)).sum := by
  have h := totalUnbondingOf_foldl vals u 0 hu hW
  simpa [totalUnbondingOf] using h

/-- Claim C5: a successful redeem of `amount` basket tokens inserts a
pending redemption with `sharesBurned = amount`,
`tokensToReceive = totalUnbonding` where `totalUnbonding` is the sum
over the basket's validators of `floor(weight * underlying)` with
`underlying = floor(amount * rate)`, and
`completionTime = blockTime + unbondingTime`; and the basket's
`TotalShares` drops by exactly `amount` while its `TotalStakedTokens`
drops by exactly `totalUnbonding`. -/
theorem c5_redeem_effects (stk : StakingState) (validAcc : String → Bool)
    (blockTime : ℤ) (s : LstState) (msg : MsgRedeemBasketToken) (b : Basket)
    (hb : GetBasket s msg.BasketId = some b) (hbid : b.Id = msg.BasketId)
    (hW : ∀ v ∈ b.Validators, 0 ≤ v.Weight)
    (hSh : 0 ≤ b.TotalShares) (hSt : 0 ≤ b.TotalStakedTokens)
    (hAmt : 0 ≤ msg.Amount.amount)
    (s2 : LstState) (out : Nat × ℤ)
    (hrun : msgRedeemBasketToken stk validAcc blockTime s msg = (s2, .ok out)) :
    GetPendingRedemption s2 out.1 = some
      { Id := out.1, BasketId := msg.BasketId, Delegator := msg.Redeemer,
        SharesBurned := (msg.Amount.amount : ℚ),
        TokensToReceive :=
          (b.Validators.map (fun v => ⌊v.Weight *
            ((⌊(msg.Amount.amount : ℚ) * GetBasketExchangeRate b⌋ : ℤ) : ℚ)⌋)).sum,
        CompletionTime := blockTime + stk.unbondingTime,
        CreationTime := blockTime } ∧
    GetBasket s2 msg.BasketId = some
      { b with
        TotalShares := b.TotalShares - (msg.Amount.amount : ℚ),
        TotalStakedTokens := b.TotalStakedTokens -
          (b.Validators.map (fun v => ⌊v.Weight *
            ((⌊(msg.Amount.amount : ℚ) * GetBasketExchangeRate b⌋ : ℤ) : ℚ)⌋)).sum } ∧
    out.2 = blockTime + stk.unbondingTime := by
  have hunder : calculateUnderlyingTokensToRedeem b msg.Amount.amount =
      ⌊(msg.Amount.amount : ℚ) * GetBasketExchangeRate b⌋ := by
    rw [calculateUnderlyingTokensToRedeem]
    exact TruncateInt_eq_floor _
      (mul_nonneg (by exact_mod_cast hAmt) (GetBasketExchangeRate_nonneg b hSh hSt))
  have hfloor : (0 : ℤ) ≤ ⌊(msg.Amount.amount : ℚ) * GetBasketExchangeRate b⌋ := by
    apply Int.floor_nonneg.mpr
    exact mul_nonneg (by exact_mod_cast hAmt) (GetBasketExchangeRate_nonneg b hSh hSt)
  have hsum : totalUnbondingOf b.Validators
      (calculateUnderlyingTokensToRedeem b msg.Amount.amount) =
      (b.Validators.map (fun v => ⌊v.Weight *
        ((⌊(msg.Amount.amount : ℚ) * GetBasketExchangeRate b⌋ : ℤ) : ℚ)⌋)).sum := by
    rw [hunder]
    exact totalUnbondingOf_eq_sum b.Validators _ hfloor hW
  simp only [msgRedeemBasketToken] at hrun
  split at hrun
  · exact absurd (congrArg Prod.snd hrun) (by simp)
  · rw [hb] at hrun
    simp only at hrun
    split at hrun
    · exact absurd (congrArg Prod.snd hrun) (by simp)
    · simp only [CreatePendingRedemption] at hrun
      have hs2 := congrArg Prod.fst hrun
      have hout := congrArg Prod.snd hrun
      simp only at hs2 hout
      have hout2 : ((GetNextPendingID s).1, blockTime + stk.unbondingTime) = out :=
        Except.ok.inj hout
      subst hs2
      rw [← hout2]
      refine ⟨?_, ?_, rfl⟩
      · show kvGet (SetPendingRedemption (GetNextPendingID s).2 _).pendingRedemptions
          (GetNextPendingID s).1 = _
        rw [show (SetPendingRedemption (GetNextPendingID s).2
            { Id := (GetNextPendingID s).1, BasketId := msg.BasketId,
              Delegator := msg.Redeemer, SharesBurned := (msg.Amount.amount : ℚ),
              TokensToReceive := totalUnbondingOf b.Validators
                (calculateUnderlyingTokensToRedeem b msg.Amount.amount),
              CompletionTime := blockTime + stk.unbondingTime,
              CreationTime := blockTime }).pendingRedemptions =
            kvSet (GetNextPendingID s).2.pendingRedemptions (GetNextPendingID s).1
              { Id := (GetNextPendingID s).1, BasketId := msg.BasketId,
                Delegator := msg.Redeemer, SharesBurned := (msg.Amount.amount : ℚ),
                TokensToReceive := totalUnbondingOf b.Validators
                  (calculateUnderlyingTokensToRedeem b msg.Amount.amount),
                CompletionTime := blockTime + stk.unbondingTime,
                CreationTime := blockTime } from rfl]
        rw [kvGet_kvSet_same]
        rw [hsum]
      · show GetBasket (SetBasket _ _) msg.BasketId = _
        rw [SetBasket, GetBasket]
        simp only
        rw [show ({ b with
            TotalShares := b.TotalShares - (msg.Amount.amount : ℚ),
            TotalStakedTokens := b.TotalStakedTokens - totalUnbondingOf b.Validators
              (calculateUnderlyingTokensToRedeem b msg.Amount.amount) } : Basket).Id =
            msg.BasketId from hbid]
        rw [kvGet_kvSet_same, hsum]

/-- Basket with 10 shares backing 10 staked tokens across two
validators at weight 1/2 each. -/
def basketC5 : Basket :=
  { Id := "1", Denom := "bTIA-1",
    Validators :=
      [{ ValidatorAddress := "valoper1", Weight := 1 / 2 },
       { ValidatorAddress := "valoper2", Weight := 1 / 2 }],
    TotalShares := 10, TotalStakedTokens := 10, Creator := "celestia1creator",
    CreationTime := 0, Metadata := { Name := "", Description := "", Symbol := "" } }

/-- State holding `basketC5`. -/
def stateC5 : LstState := SetBasket emptyLstState basketC5

/-- Redeem 4 basket tokens of basket 1. -/
def msgC5 : MsgRedeemBasketToken :=
  { Redeemer := "celestia1redeemer", BasketId := "1",
    Amount := { denom := "bTIA-1", amount := 4 } }

/-- Witness for C5: redeeming 4 tokens of `basketC5` stores pending
redemption 1 with the claimed fields and updates the basket by exactly
the claimed deltas. -/
theorem c5_redeem_effects_witness :
    GetPendingRedemption (msgRedeemBasketToken stkW allValid 0 stateC5 msgC5).1 1 =
      some
        { Id := 1, BasketId := "1", Delegator := "celestia1redeemer",
          SharesBurned := ((4 : ℤ) : ℚ),
          TokensToReceive :=
            (basketC5.Validators.map (fun v => ⌊v.Weight *
              ((⌊((4 : ℤ) : ℚ) * GetBasketExchangeRate basketC5⌋ : ℤ) : ℚ)⌋)).sum,
          CompletionTime := 0 + stkW.unbondingTime, CreationTime := 0 } ∧
    GetBasket (msgRedeemBasketToken stkW allValid 0 stateC5 msgC5).1 "1" =
      some
        { basketC5 with
          TotalShares := basketC5.TotalShares - ((4 : ℤ) : ℚ),
          TotalStakedTokens := basketC5.TotalStakedTokens -
            (basketC5.Validators.map (fun v => ⌊v.Weight *
              ((⌊((4 : ℤ) : ℚ) * GetBasketExchangeRate basketC5⌋ : ℤ) : ℚ)⌋)).sum } := by
  have hW : ∀ v ∈ basketC5.Validators, 0 ≤ v.Weight := by
    intro v hv
    simp only [basketC5, List.mem_cons, List.not_mem_nil, or_false] at hv
    rcases hv with rfl | rfl <;> norm_num
  have h := c5_redeem_effects stkW allValid 0 stateC5 msgC5 basketC5 rfl rfl hW
    (by norm_num [basketC5]) (by norm_num [basketC5]) (by norm_num [msgC5])
    (msgRedeemBasketToken stkW allValid 0 stateC5 msgC5).1 (1, 0 + stkW.unbondingTime)
    rfl
  exact ⟨h.1, h.2.1⟩

/-- Claim C2: a successful basket-to-basket conversion of `amt` source
shares moves `underlying = floor(amt * rate(source))` staked tokens:
the source basket's `TotalStakedTokens` drops by exactly `underlying`,
the target basket's rises by exactly `underlying` (so the difference
between the two deltas is zero, within the claimed
`sourceValidatorCount * targetValidatorCount` dust bound), and both
aggregates are persisted by the operation.  The `htbRate` hypothesis
confines the statement to target baskets on which the Go code does not
hit a zero-divisor panic in `LegacyDec.Quo`. -/
theorem c2_convert_basket_conservation (s : LstState) (delegator : String)
    (fromID toID : String) (amt : ℚ) (fb tb : Basket)
    (hfb : GetBasket s fromID = some fb) (hfid : fb.Id = fromID)
    (htb : GetBasket s toID = some tb) (htid : tb.Id = toID)
    (hne : fromID ≠ toID) (hAmt : 0 ≤ amt)
    (hfSh : 0 ≤ fb.TotalShares) (hfSt : 0 ≤ fb.TotalStakedTokens)
    (htbRate : tb.TotalShares = 0 ∨ tb.TotalStakedTokens ≠ 0)
    (s2 : LstState) (minted : ℤ)
    (hrun : ConvertBasketToBasket s delegator fromID toID amt = (s2, .ok minted)) :
    GetBasket s2 fromID = some
      { fb with
        TotalShares := fb.TotalShares - amt,
        TotalStakedTokens := fb.TotalStakedTokens -
          ⌊amt * GetBasketExchangeRate fb⌋ } ∧
    GetBasket s2 toID = some
      { tb with
        TotalShares := tb.TotalShares +
          ((⌊amt * GetBasketExchangeRate fb⌋ : ℚ) / GetBasketExchangeRate tb),
        TotalStakedTokens := tb.TotalStakedTokens +
          ⌊amt * GetBasketExchangeRate fb⌋ } ∧
    ((fb.TotalStakedTokens -
        (fb.TotalStakedTokens - ⌊amt * GetBasketExchangeRate fb⌋)) -
      ((tb.TotalStakedTokens + ⌊amt * GetBasketExchangeRate fb⌋) -
        tb.TotalStakedTokens)).natAbs ≤
      fb.Validators.length * tb.Validators.length := by
  have htr : TruncateInt (amt * GetBasketExchangeRate fb) =
      ⌊amt * GetBasketExchangeRate fb⌋ :=
    TruncateInt_eq_floor _
      (mul_nonneg hAmt (GetBasketExchangeRate_nonneg fb hfSh hfSt))
  simp only [ConvertBasketToBasket] at hrun
  rw [hfb] at hrun
  simp only at hrun
  rw [htb] at hrun
  simp only at hrun
  have hs2 := congrArg Prod.fst hrun
  simp only at hs2
  subst hs2
  refine ⟨?_, ?_, by simp⟩
  · show GetBasket (SetBasket (SetBasket s _) _) fromID = _
    rw [SetBasket, SetBasket, GetBasket]
    simp only
    rw [kvGet_kvSet_other _ _ _ _ (by rw [htid]; exact hne)]
    rw [show ({ fb with
        TotalShares := fb.TotalShares - amt,
        TotalStakedTokens := fb.TotalStakedTokens -
          TruncateInt (amt * GetBasketExchangeRate fb) } : Basket).Id = fromID
      from hfid]
    rw [kvGet_kvSet_same, htr]
  · show GetBasket (SetBasket (SetBasket s _) _) toID = _
    rw [SetBasket, SetBasket, GetBasket]
    simp only
    rw [show ({ tb with
        TotalShares := tb.TotalShares +
          ((TruncateInt (amt * GetBasketExchangeRate fb) : ℚ) /
            GetBasketExchangeRate tb),
        TotalStakedTokens := tb.TotalStakedTokens +
          TruncateInt (amt * GetBasketExchangeRate fb) } : Basket).Id = toID
      from htid]
    rw [kvGet_kvSet_same, htr]

/-- Source basket for the conversion witness: rate 1. -/
def basketC2from : Basket :=
  { Id := "1", Denom := "bTIA-1",
    Validators := [{ ValidatorAddress := "valoper1", Weight := 1 }],
    TotalShares := 10, TotalStakedTokens := 10, Creator := "celestia1creator",
    CreationTime := 0, Metadata := { Name := "", Description := "", Symbol := "" } }

/-- Target basket for the conversion witness: rate 2. -/
def basketC2to : Basket :=
  { Id := "2", Denom := "bTIA-2",
    Validators := [{ ValidatorAddress := "valoper2", Weight := 1 }],
    TotalShares := 4, TotalStakedTokens := 8, Creator := "celestia1creator",
    CreationTime := 0, Metadata := { Name := "", Description := "", Symbol := "" } }

/-- State holding both conversion-witness baskets. -/
def stateC2 : LstState := SetBasket (SetBasket emptyLstState basketC2from) basketC2to

/-- Witness for C2: converting 5 source shares (underlying
`floor(5 * rate(source))`) debits the source and credits the target by
that same amount. -/
theorem c2_convert_basket_conservation_witness :
    GetBasket (ConvertBasketToBasket stateC2 "celestia1conv" "1" "2" 5).1 "1" =
      some
        { basketC2from with
          TotalShares := basketC2from.TotalShares - 5,
          TotalStakedTokens := basketC2from.TotalStakedTokens -
            ⌊(5 : ℚ) * GetBasketExchangeRate basketC2from⌋ } ∧
    GetBasket (ConvertBasketToBasket stateC2 "celestia1conv" "1" "2" 5).1 "2" =
      some
        { basketC2to with
          TotalShares := basketC2to.TotalShares +
            ((⌊(5 : ℚ) * GetBasketExchangeRate basketC2from⌋ : ℚ) /
              GetBasketExchangeRate basketC2to),
          TotalStakedTokens := basketC2to.TotalStakedTokens +
            ⌊(5 : ℚ) * GetBasketExchangeRate basketC2from⌋ } := by
  have h := c2_convert_basket_conservation stateC2 "celestia1conv" "1" "2" 5
    basketC2from basketC2to rfl rfl rfl rfl (by decide) (by norm_num)
    (by norm_num [basketC2from]) (by norm_num [basketC2from])
    (Or.inr (by norm_num [basketC2to]))
    (ConvertBasketToBasket stateC2 "celestia1conv" "1" "2" 5).1
    (TruncateInt ((TruncateInt ((5 : ℚ) * GetBasketExchangeRate basketC2from) : ℤ) /
      (GetBasketExchangeRate basketC2to) : ℚ)) rfl
  exact ⟨h.1, h.2.1⟩

/-- Basket with 1 share backing 2 staked tokens (rate 2). -/
def basketC7 : Basket :=
  { Id := "1", Denom := "bTIA-1",
    Validators := [{ ValidatorAddress := "valoper1", Weight := 1 }],
    TotalShares := 1, TotalStakedTokens := 2, Creator := "celestia1creator",
    CreationTime := 0, Metadata := { Name := "", Description := "", Symbol := "" } }

/-- State holding `basketC7`. -/
def stateC7 : LstState := SetBasket emptyLstState basketC7

/-- Counterexample to claim C7 as stated: converting a delegation of 1
into the rate-2 basket mints `floor(1/2) = 0` basket tokens to the
delegator, but the basket's `TotalShares` grows by the untruncated
quotient 1/2 — not by the minted quantity 0. -/
theorem c7_counterexample_shares_not_minted :
    (ConvertDelegationToBasket stateC7 "celestia1deleg" "valoper1" 1 "1").2 =
      Except.ok 0 ∧
    (GetBasket (ConvertDelegationToBasket stateC7 "celestia1deleg" "valoper1" 1 "1").1
      "1").map Basket.TotalShares = some (basketC7.TotalShares + 1 / 2) ∧
    basketC7.TotalShares + 1 / 2 ≠ basketC7.TotalShares + ((0 : ℤ) : ℚ) := by
  have hrate : GetBasketExchangeRate basketC7 = 2 := by
    norm_num [GetBasketExchangeRate, basketC7]
  have hsm : ((1 : ℤ) : ℚ) / GetBasketExchangeRate basketC7 = 1 / 2 := by
    rw [hrate]
    norm_num
  have hstep : ConvertDelegationToBasket stateC7 "celestia1deleg" "valoper1" 1 "1" =
      (SetBasket stateC7
        { basketC7 with
          TotalShares := basketC7.TotalShares +
            ((1 : ℤ) : ℚ) / GetBasketExchangeRate basketC7,
          TotalStakedTokens := basketC7.TotalStakedTokens + 1 },
        Except.ok (TruncateInt (((1 : ℤ) : ℚ) / GetBasketExchangeRate basketC7))) := rfl
  refine ⟨?_, ?_, by norm_num [basketC7]⟩
  · rw [hstep]
    show Except.ok (TruncateInt (((1 : ℤ) : ℚ) / GetBasketExchangeRate basketC7)) = _
    rw [hsm]
    norm_num [TruncateInt]
  · rw [hstep]
    show (GetBasket (SetBasket stateC7 _) "1").map Basket.TotalShares = _
    rw [SetBasket, GetBasket]
    simp only
    rw [show ({ basketC7 with
        TotalShares := basketC7.TotalShares +
          ((1 : ℤ) : ℚ) / GetBasketExchangeRate basketC7,
        TotalStakedTokens := basketC7.TotalStakedTokens + 1 } : Basket).Id = "1"
      from rfl]
    rw [kvGet_kvSet_same]
    simp only [Option.map_some']
    rw [hsm]

/-- Claim C7 as amended: a successful delegation-to-basket conversion
of `amount` mints `floor(amount / rate(basket))` basket tokens to the
delegator with the rate taken before the update, and updates the basket
by `+amount` staked tokens and by the untruncated share quotient
`amount / rate` — which equals the minted quantity only when the
quotient is an integer.  The `hRate` hypothesis confines the statement
to baskets on which the Go code does not hit a zero-divisor panic in
`LegacyDec.Quo`. -/
theorem c7_convert_delegation_effects (s : LstState)
    (delegator validatorAddr : String) (amount : ℤ) (basketID : String)
    (b : Basket) (hb : GetBasket s basketID = some b) (hbid : b.Id = basketID)
    (hAmt : 0 ≤ amount) (hSh : 0 ≤ b.TotalShares) (hSt : 0 ≤ b.TotalStakedTokens)
    (hRate : b.TotalShares = 0 ∨ b.TotalStakedTokens ≠ 0)
    (s2 : LstState) (minted : ℤ)
    (hrun : ConvertDelegationToBasket s delegator validatorAddr amount basketID =
      (s2, .ok minted)) :
    minted = ⌊(amount : ℚ) / GetBasketExchangeRate b⌋ ∧
    GetBasket s2 basketID = some
      { b with
        TotalShares := b.TotalShares + (amount : ℚ) / GetBasketExchangeRate b,
        TotalStakedTokens := b.TotalStakedTokens + amount } := by
  have htr : TruncateInt ((amount : ℚ) / GetBasketExchangeRate b) =
      ⌊(amount : ℚ) / GetBasketExchangeRate b⌋ :=
    TruncateInt_eq_floor _
      (div_nonneg (by exact_mod_cast hAmt) (GetBasketExchangeRate_nonneg b hSh hSt))
  simp only [ConvertDelegationToBasket] at hrun
  rw [hb] at hrun
  simp only at hrun
  have hs2 := congrArg Prod.fst hrun
  have hm := congrArg Prod.snd hrun
  simp only at hs2 hm
  have hm2 := Except.ok.inj hm
  subst hs2
  refine ⟨by rw [← hm2, htr], ?_⟩
  show GetBasket (SetBasket s _) basketID = _
  rw [SetBasket, GetBasket]
  simp only
  rw [show ({ b with
      TotalShares := b.TotalShares + (amount : ℚ) / GetBasketExchangeRate b,
      TotalStakedTokens := b.TotalStakedTokens + amount } : Basket).Id = basketID
    from hbid]
  rw [kvGet_kvSet_same]

/-- Witness for the amended C7: converting 3 staked tokens into the
rate-1 basket of `stateC5` mints `floor(3 / rate)` tokens and updates
the aggregates by the exact quotient and the full amount. -/
theorem c7_convert_delegation_effects_witness :
    TruncateInt (((3 : ℤ) : ℚ) / GetBasketExchangeRate basketC5) =
      ⌊((3 : ℤ) : ℚ) / GetBasketExchangeRate basketC5⌋ ∧
    GetBasket (ConvertDelegationToBasket stateC5 "celestia1deleg" "valoper1" 3 "1").1
      "1" = some
      { basketC5 with
        TotalShares := basketC5.TotalShares + ((3 : ℤ) : ℚ) / GetBasketExchangeRate basketC5,
        TotalStakedTokens := basketC5.TotalStakedTokens + 3 } := by
  have h := c7_convert_delegation_effects stateC5 "celestia1deleg" "valoper1" 3 "1"
    basketC5 rfl rfl (by norm_num) (by norm_num [basketC5]) (by norm_num [basketC5])
    (Or.inr (by norm_num [basketC5]))
    (ConvertDelegationToBasket stateC5 "celestia1deleg" "valoper1" 3 "1").1
    (TruncateInt (((3 : ℤ) : ℚ) / GetBasketExchangeRate basketC5)) rfl
  exact ⟨h.1, h.2⟩

/-- State with basket-ID counter 5, used for counter-mutation checks. -/
def stateC6 : LstState := { emptyLstState with nextBasketId := some 5 }

/-- Empty metadata. -/
def mdE : BasketMetadata := { Name := "", Description := "", Symbol := "" }

/-- Counterexample to claim C6 as stated: `Keeper.CreateBasket` with an
empty validator set (weight sum 0) returns the weights-sum validation
error, yet the `nextBasketId` counter has already been advanced from 5
to 6 — a state mutation performed before the error is detected. -/
theorem c6_counterexample_keeper_counter_bump :
    (KeeperCreateBasket stkW 0 stateC6 "celestia1creator" [] mdE).2 =
      .error .weightsSumIncorrect ∧
    ((KeeperCreateBasket stkW 0 stateC6 "celestia1creator" [] mdE).1).nextBasketId =
      some 6 ∧
    stateC6.nextBasketId = some 5 ∧
    (some 6 : Option Nat) ≠ some 5 := by
  have hsum : sumWeights ([] : List ValidatorWeight) ≠ 1 := by
    norm_num [sumWeights]
  have hrunK : KeeperCreateBasket stkW 0 stateC6 "celestia1creator" [] mdE =
      ((GetNextBasketID stateC6).2, .error .weightsSumIncorrect) := by
    simp only [KeeperCreateBasket, checkValidatorsKeeper, if_pos hsum]
  rw [hrunK]
  refine ⟨rfl, rfl, rfl, by decide⟩

/-- Claim C6 as amended: on every validation error the message-server
operations and the conversion keepers leave the store exactly as it
was; `Keeper.CreateBasket` alone allocates the next basket ID before
validating, so on its validation errors (validator not found, weight
sum wrong) the resulting state is the input state with only the
`nextBasketId` counter advanced — baskets, the denom index, pending
redemptions, both redemption indices and the pending counter are
unchanged. -/
theorem c6_validation_errors_no_mutation :
    (∀ (stk : StakingState) (va vv : String → Bool) (t : ℤ) (s : LstState)
      (msg : MsgCreateBasket) (s2 : LstState) (e : Err),
      msgCreateBasket stk va vv t s msg = (s2, .error e) → s2 = s) ∧
    (∀ (stk : StakingState) (va : String → Bool) (t : ℤ) (s : LstState)
      (msg : MsgMintBasketToken) (s2 : LstState) (e : Err),
      msgMintBasketToken stk va t s msg = (s2, .error e) → s2 = s) ∧
    (∀ (stk : StakingState) (va : String → Bool) (t : ℤ) (s : LstState)
      (msg : MsgRedeemBasketToken) (s2 : LstState) (e : Err),
      msgRedeemBasketToken stk va t s msg = (s2, .error e) → s2 = s) ∧
    (∀ (s : LstState) (d v : String) (amt : ℤ) (bid : String) (s2 : LstState)
      (e : Err),
      ConvertDelegationToBasket s d v amt bid = (s2, .error e) → s2 = s) ∧
    (∀ (s : LstState) (d fromID toID : String) (amt : ℚ) (s2 : LstState) (e : Err),
      ConvertBasketToBasket s d fromID toID amt = (s2, .error e) → s2 = s) ∧
    (∀ (stk : StakingState) (t : ℤ) (s : LstState) (creator : String)
      (vals : List ValidatorWeight) (md : BasketMetadata) (s2 : LstState) (e : Err),
      KeeperCreateBasket stk t s creator vals md = (s2, .error e) →
      s2 = (GetNextBasketID s).2 ∧ s2.baskets = s.baskets ∧
      s2.basketByDenom = s.basketByDenom ∧
      s2.pendingRedemptions = s.pendingRedemptions ∧
      s2.redemptionByUser = s.redemptionByUser ∧
      s2.redemptionByBasket = s.redemptionByBasket ∧
      s2.nextPendingId = s.nextPendingId) := by
  refine ⟨?_, ?_, ?_, ?_, ?_, ?_⟩
  · intro stk va vv t s msg s2 e h
    simp only [msgCreateBasket] at h
    split at h
    · exact (congrArg Prod.fst h).symm
    · split at h
      · exact (congrArg Prod.fst h).symm
      · exact absurd (congrArg Prod.snd h) (by simp)
  · intro stk va t s msg s2 e h
    simp only [msgMintBasketToken] at h
    split at h
    · exact (congrArg Prod.fst h).symm
    · split at h
      · exact (congrArg Prod.fst h).symm
      · split at h
        · exact (congrArg Prod.fst h).symm
        · exact absurd (congrArg Prod.snd h) (by simp)
  · intro stk va t s msg s2 e h
    simp only [msgRedeemBasketToken] at h
    split at h
    · exact (congrArg Prod.fst h).symm
    · split at h
      · exact (congrArg Prod.fst h).symm
      · split at h
        · exact (congrArg Prod.fst h).symm
        · exact absurd (congrArg Prod.snd h) (by simp)
  · intro s d v amt bid s2 e h
    simp only [ConvertDelegationToBasket] at h
    split at h
    · exact (congrArg Prod.fst h).symm
    · exact absurd (congrArg Prod.snd h) (by simp)
  · intro s d fromID toID amt s2 e h
    simp only [ConvertBasketToBasket] at h
    split at h
    · exact (congrArg Prod.fst h).symm
    · split at h
      · exact (congrArg Prod.fst h).symm
      · exact absurd (congrArg Prod.snd h) (by simp)
  · intro stk t s creator vals md s2 e h
    simp only [KeeperCreateBasket] at h
    have hs2 : s2 = (GetNextBasketID s).2 := by
      split at h
      · exact (congrArg Prod.fst h).symm
      · split at h
        · exact (congrArg Prod.fst h).symm
        · exact absurd (congrArg Prod.snd h) (by simp)
    refine ⟨hs2, ?_, ?_, ?_, ?_, ?_, ?_⟩ <;> rw [hs2]
    · exact GetNextBasketID_baskets s
    · exact GetNextBasketID_byDenom s
    · exact GetNextBasketID_pendings s
    · exact GetNextBasketID_byUser s
    · exact GetNextBasketID_byBasket s
    · exact GetNextBasketID_nextPending s

/-- Rejecting address validator used in witnesses. -/
def noValid : String → Bool := fun _ => false

/-- Witness for the amended C6: an invalid-creator rejection of basket
creation, a basket-not-found rejection of a redeem, and the
weights-sum rejection of `Keeper.CreateBasket` each leave the store as
described (untouched for the first two, counter-only bump for the
third). -/
theorem c6_validation_errors_no_mutation_witness :
    (msgCreateBasket stkW noValid allValid 0 emptyLstState msgC3ok).1 =
      emptyLstState ∧
    (msgRedeemBasketToken stkW allValid 0 emptyLstState msgC5).1 = emptyLstState ∧
    (KeeperCreateBasket stkW 0 stateC6 "celestia1creator" [] mdE).1 =
      (GetNextBasketID stateC6).2 := by
  have hsum : sumWeights ([] : List ValidatorWeight) ≠ 1 := by
    norm_num [sumWeights]
  have hrunK : KeeperCreateBasket stkW 0 stateC6 "celestia1creator" [] mdE =
      ((KeeperCreateBasket stkW 0 stateC6 "celestia1creator" [] mdE).1,
        .error .weightsSumIncorrect) := by
    simp only [KeeperCreateBasket, checkValidatorsKeeper, if_pos hsum]
  refine ⟨?_, ?_, ?_⟩
  · exact c6_validation_errors_no_mutation.1 stkW noValid allValid 0 emptyLstState
      msgC3ok _ .invalidCreator rfl
  · exact c6_validation_errors_no_mutation.2.2.1 stkW allValid 0 emptyLstState
      msgC5 _ .basketNotFound rfl
  · exact (c6_validation_errors_no_mutation.2.2.2.2.2 stkW 0 stateC6
      "celestia1creator" [] mdE _ .weightsSumIncorrect hrunK).1

/-- First record: id 1 belonging to user "a". -/
def redemptionA : PendingRedemption :=
  { Id := 1, BasketId := "1", Delegator := "a", SharesBurned := 1,
    TokensToReceive := 1, CompletionTime := 1, CreationTime := 0 }

/-- Second record: the same id 1 rewritten to user "b". -/
def redemptionB : PendingRedemption :=
  { Id := 1, BasketId := "1", Delegator := "b", SharesBurned := 1,
    TokensToReceive := 1, CompletionTime := 1, CreationTime := 0 }

/-- The store after `SetPendingRedemption` of `redemptionA` followed by
`SetPendingRedemption` of `redemptionB` (same id, different user). -/
def stateC10 : LstState :=
  SetPendingRedemption (SetPendingRedemption emptyLstState redemptionA) redemptionB

/-- Counterexample to claim C10 as stated: after the two writes above —
a sequence of `SetPendingRedemption` calls from the empty store, as the
claim allows — querying user "a" returns the record now owned by "b"
(the first write's index entry is stale), so the listing contains an
entry whose `Delegator` is not the queried user. -/
theorem c10_counterexample_stale_user_index :
    (GetPendingRedemptionsByUser stateC10 "a").map PendingRedemption.Delegator =
      ["b"] ∧
    "b" ≠ "a" := by
  refine ⟨by decide, by decide⟩

/-- Claim C10 as amended (insertions use fresh ids, as the allocator
guarantees): in every store reachable from the empty store by
`SetPendingRedemption` calls with not-currently-stored ids and
`DeletePendingRedemption` calls passed the stored record, the by-user
listing returns exactly the stored redemptions with the queried
`Delegator` and the by-basket listing exactly those with the queried
`BasketId` — no extras, none missing. -/
theorem c10_index_queries_exact (s : LstState) (h : ReachablePending s)
    (u b : String) (r : PendingRedemption) :
    (r ∈ GetPendingRedemptionsByUser s u ↔
      (∃ i, (i, r) ∈ s.pendingRedemptions) ∧ r.Delegator = u) ∧
    (r ∈ GetPendingRedemptionsByBasket s b ↔
      (∃ i, (i, r) ∈ s.pendingRedemptions) ∧ r.BasketId = b) := by
  have hInv := reachable_pendingIndexInv h
  exact ⟨mem_byUser_iff hInv u r, mem_byBasket_iff hInv b r⟩

/-- Witness for the amended C10: in the reachable one-record store
`stateM`, the record is listed for its own user and basket and not for
another user. -/
theorem c10_index_queries_exact_witness :
    redemptionM ∈ GetPendingRedemptionsByUser stateM "celestia1redeemer" ∧
    redemptionM ∈ GetPendingRedemptionsByBasket stateM "1" ∧
    redemptionM ∉ GetPendingRedemptionsByUser stateM "other" := by
  have hreach : ReachablePending stateM :=
    ReachablePending.set emptyLstState redemptionM ReachablePending.empty
      (by decide) rfl
  refine ⟨?_, ?_, ?_⟩
  · exact (c10_index_queries_exact stateM hreach "celestia1redeemer" "1"
      redemptionM).1.mpr ⟨⟨1, by decide⟩, rfl⟩
  · exact (c10_index_queries_exact stateM hreach "celestia1redeemer" "1"
      redemptionM).2.mpr ⟨⟨1, by decide⟩, rfl⟩
  · intro hin
    have := ((c10_index_queries_exact stateM hreach "other" "1"
      redemptionM).1.mp hin).2
    exact absurd this (by decide)
